import Mathlib

/-!
go-dnf: a verification development

A shallow embedding of the command facade of `main.go` (the constructor `New`,
the argument builders, `processOptions`, `runner`, the `Depends` output
parser) and of the binary locator of `dnf.go`, together with the few functions
of Go's `strings` and `regexp` packages they call.

Go strings are modelled by Lean `String`s, that is, sequences of Unicode code
points (the valid UTF-8 texts).  A Go slice of packages is modelled as
`Option (List Package)`, `none` being the `nil` slice; an `error` is
`Option GoError`, `none` being `nil`.
-/

namespace GoDnf

/-! ## The functions of Go's `strings` and `unicode` packages used here -/

/-- The predicate `unicode.IsSpace`: the Latin-1 spaces
`\t \n \v \f \r ' ' U+0085 U+00A0` and, above Latin-1, the code points with
the `White_Space` property. -/
def isSpace (r : Char) : Bool :=
  let n := r.toNat
  if n ≤ 0xFF then
    n == 0x09 || n == 0x0A || n == 0x0B || n == 0x0C || n == 0x0D || n == 0x20
      || n == 0x85 || n == 0xA0
  else
    n == 0x1680 || (0x2000 ≤ n && n ≤ 0x200A) || n == 0x2028 || n == 0x2029
      || n == 0x202F || n == 0x205F || n == 0x3000

/-- Drop the leading white space of a code-point sequence
(`strings.TrimLeftFunc s unicode.IsSpace`). -/
def trimLeft (s : List Char) : List Char := s.dropWhile isSpace

/-- Drop the trailing white space of a code-point sequence
(`strings.TrimRightFunc s unicode.IsSpace`). -/
def trimRight (s : List Char) : List Char := (s.reverse.dropWhile isSpace).reverse

/-- The function `strings.TrimSpace`: the text without its leading and
trailing white space. -/
def TrimSpace (s : String) : String := ⟨trimRight (trimLeft s.data)⟩

/-- The function `strings.HasPrefix`. -/
def HasPrefix (s pre : String) : Bool := pre.data.isPrefixOf s.data

/-- The scanning loop of `strings.Split` for a non-empty separator: `skip`
counts the code points of a separator just matched that are still to be
passed over, `cur` is the piece being collected, most recent code point
first.  Matches are taken leftmost first and do not overlap. -/
def splitGo (sep : List Char) : List Char → Nat → List Char → List (List Char)
  | [], _, cur => [cur.reverse]
  | _ :: cs, skip + 1, cur => splitGo sep cs skip cur
  | c :: cs, 0, cur =>
    if sep.isPrefixOf (c :: cs) then
      cur.reverse :: splitGo sep cs (sep.length - 1) []
    else
      splitGo sep cs 0 (c :: cur)

/-- Split a code-point sequence at every leftmost, non-overlapping occurrence
of `sep`; an empty separator splits after each code point. -/
def splitList (sep s : List Char) : List (List Char) :=
  if sep = [] then s.map (fun c => [c]) else splitGo sep s 0 []

/-- The function `strings.Split`. -/
def Split (s sep : String) : List String := (splitList sep.data s.data).map String.mk

/-- The function `strings.Join`: the elements with `sep` between them. -/
def Join : List String → String → String
  | [], _ => ""
  | [a], _ => a
  | a :: b :: elems, sep => a ++ sep ++ Join (b :: elems) sep

/-! ## Data model of `main.go` -/

/-- A DNF package (`type Package struct`). -/
structure Package where
  Name : String
  Version : String := ""
  Path : String := ""
  deriving DecidableEq, Repr

/-- A Go `error` value: a message-only error made by `errors.New` or
`fmt.Errorf`, or an error handed back by the process executor. -/
inductive GoError where
  | errorString (msg : String)
  | execError (msg : String)
  deriving DecidableEq, Repr

/-- The method `Error()` of an error value. -/
def GoError.Error : GoError → String
  | .errorString msg => msg
  | .execError msg => msg

/-- The result pair `([]Package, error)` of a parser and of `runner`. -/
abbrev Result := Option (List Package) × Option GoError

/-- The list held by a slice of packages, the `nil` slice holding none. -/
def packagesOf (r : Result) : List Package := r.1.getD []

/-- The loop `for _, line := range lines` of the `Depends` parser, with the
slice `dependencies` accumulated so far. -/
def dependsLoop : List String → List Package → Result
  | [], dependencies => (some dependencies, none)
  | line :: lines, dependencies =>
    let trimmed := TrimSpace line
    if trimmed = "" then
      (some dependencies, none)
    else if HasPrefix trimmed "provider:" then
      match Split trimmed ": " with
      | [_, name] => dependsLoop lines (dependencies ++ [{ Name := name }])
      | _ => dependsLoop lines dependencies
    else
      dependsLoop lines dependencies

/-- The `parser` closure of `Depends`. -/
def dependsParser (output : String) : Result :=
  dependsLoop (Split output "\n") []

/-- An `io.Writer` handed in by the caller, known by an identifier. -/
structure Writer where
  id : Nat
  deriving DecidableEq, Repr

/-- The configuration options for the running command (`type Options struct`). -/
structure Options where
  Verbose : Bool := false
  DryRun : Bool := false
  Output : Option Writer := none
  NotAssumeYes : Bool := false
  DestDir : String := ""
  deriving DecidableEq, Repr

/-- The DNF client (`type Dnf struct`). -/
structure Dnf where
  binaryPath : String
  deriving DecidableEq, Repr

/-- The command made by `execCommander().Command(path, arguments...)` as it
stands when `Run` is called: the program, its argument vector, and the
writer (if any) that receives a copy of standard output and standard error
besides the capture buffer. -/
structure Command where
  path : String
  args : List String
  tee : Option Writer
  deriving DecidableEq, Repr

/-- What running a command yields: the text the process wrote to standard
output (the content of `buffer`), the text it wrote to standard error, and the
error of `command.Run()`. -/
structure RunResult where
  stdout : String
  stderr : String
  err : Option GoError
  deriving DecidableEq, Repr

/-- The process executor behind `execCommander`: it runs a command. -/
abbrev Executor := Command → RunResult

/-- How a call ends: it returns a value or panics (a `nil` pointer is
dereferenced or a `nil` writer is written to); `spawned` lists the commands
run meanwhile, oldest first. -/
inductive Outcome (α : Type) where
  | returned (value : α) (spawned : List Command)
  | panicked (spawned : List Command)
  deriving DecidableEq, Repr

/-- The commands a call has run. -/
def Outcome.spawned {α : Type} : Outcome α → List Command
  | .returned _ spawned => spawned
  | .panicked spawned => spawned

/-- The error component of a call that hands back `_, err`. -/
def Outcome.errOnly : Outcome Result → Outcome (Option GoError)
  | .returned value spawned => .returned value.2 spawned
  | .panicked spawned => .panicked spawned

/-- The parameters of `runner` (`type runnerParams struct`); a `nil` slice of
arguments is the empty list. -/
structure runnerParams where
  argumentBuilder : Unit → List String × Option GoError
  parser : String → Result
  opt : Option Options

/-- The package-level error `errPackageNameNotSpecified`. -/
def errPackageNameNotSpecified : GoError :=
  .errorString "packageName was not specified."

/-- The call `fmt.Errorf(format, err)` for a format `pre ++ "%v"`. -/
def Errorf (pre : String) (err : GoError) : GoError :=
  .errorString (pre ++ err.Error)

/-- The function `processOptions`, on the `Options` its argument points to:
the command-line flags to be passed to dnf. -/
def processOptions (opt : Options) : List String :=
  let args : List String := []
  let args := if opt.DryRun then args ++ ["--setopt", "tsflags=test"] else args
  let args := if opt.Verbose then args ++ ["--verbose"] else args
  let args := if !opt.NotAssumeYes then args ++ ["--assumeyes"] else args
  let args := if opt.DestDir ≠ "" then args ++ ["--destdir", opt.DestDir] else args
  args

/-- Whether the run of a command ends in a panic.  `runner` assigns only
`command.Stdout`; when `Output` is set it makes `command.Stderr` the
`io.MultiWriter` of the still `nil` `command.Stderr` and of `Output`, so the
first write of the process to standard error calls `Write` on a `nil` writer
and the program panics. -/
def stderrWritePanics (command : Command) (ran : RunResult) : Bool :=
  command.tee.isSome && ran.stderr != ""

/-- The method `runner`: it runs a guest command with the given options.  The
receiver `a` and `params.opt` are pointers, `none` being `nil`. -/
def Dnf.runner (exec : Executor) (a : Option Dnf) (params : runnerParams) : Outcome Result :=
  match params.argumentBuilder () with
  | (_, some err) => .returned (none, some (Errorf "runner: " err)) []
  | (arguments, none) =>
    match params.opt with
    | none => .panicked []
    | some opt =>
      let arguments := arguments ++ processOptions opt
      match a with
      | none => .panicked []
      | some d =>
        let command : Command := ⟨d.binaryPath, arguments, opt.Output⟩
        let ran := exec command
        if stderrWritePanics command ran then
          .panicked [command]
        else
          match ran.err with
          | some err => .returned (none, some err) [command]
          | none =>
            match params.parser ran.stdout with
            | (_, some err) => .returned (none, some err) [command]
            | (parsed, none) => .returned (parsed, none) [command]

/-- The parser shared by every operation but `Depends`. -/
def noParser : String → Result := fun _ => (none, none)

/-- The `argumentBuilder` closure of `Install`. -/
def installArguments (packageName : String) : Unit → List String × Option GoError :=
  fun _ =>
    if TrimSpace packageName = "" then
      ([], some (Errorf "Install: " errPackageNameNotSpecified))
    else (["install", packageName], none)

/-- The method `Install`: install a dnf package from its `packageName`. -/
def Dnf.Install (exec : Executor) (a : Option Dnf) (packageName : String)
    (opt : Option Options) : Outcome (Option GoError) :=
  (Dnf.runner exec a
    { argumentBuilder := installArguments packageName
      parser := noParser
      opt := opt }).errOnly

/-- The `argumentBuilder` closure of `Update`. -/
def updateArguments (packageName : String) : Unit → List String × Option GoError :=
  fun _ =>
    if TrimSpace packageName = "" then (["update"], none)
    else (["update", packageName], none)

/-- The method `Update`: update a package, or all of them when `packageName`
is blank. -/
def Dnf.Update (exec : Executor) (a : Option Dnf) (packageName : String)
    (opt : Option Options) : Outcome (Option GoError) :=
  (Dnf.runner exec a
    { argumentBuilder := updateArguments packageName
      parser := noParser
      opt := opt }).errOnly

/-- The `argumentBuilder` closure of `Depends`. -/
def dependsArguments (packageName : String) : Unit → List String × Option GoError :=
  fun _ =>
    if TrimSpace packageName = "" then
      ([], some (Errorf "Depends: " errPackageNameNotSpecified))
    else (["repoquery", "--deplist", packageName], none)

/-- The method `Depends`: the list of dependencies of `packageName`. -/
def Dnf.Depends (exec : Executor) (a : Option Dnf) (packageName : String)
    (opt : Option Options) : Outcome Result :=
  Dnf.runner exec a
    { argumentBuilder := dependsArguments packageName
      parser := dependsParser
      opt := opt }

/-- The `argumentBuilder` closure of `Remove`. -/
def removeArguments (packageName : String) : Unit → List String × Option GoError :=
  fun _ =>
    if TrimSpace packageName = "" then
      ([], some (Errorf "Remove: " errPackageNameNotSpecified))
    else (["remove", packageName], none)

/-- The method `Remove`: remove a package from its `packageName`. -/
def Dnf.Remove (exec : Executor) (a : Option Dnf) (packageName : String)
    (opt : Option Options) : Outcome (Option GoError) :=
  (Dnf.runner exec a
    { argumentBuilder := removeArguments packageName
      parser := noParser
      opt := opt }).errOnly

/-- The `argumentBuilder` closure of `Search`. -/
def searchArguments (packageName : String) : Unit → List String × Option GoError :=
  fun _ =>
    if TrimSpace packageName = "" then
      ([], some (Errorf "Remove: " errPackageNameNotSpecified))
    else ([], none)

/-- The method `Search`: search a package from its `packageName`. -/
def Dnf.Search (exec : Executor) (a : Option Dnf) (packageName : String)
    (opt : Option Options) : Outcome (Option GoError) :=
  (Dnf.runner exec a
    { argumentBuilder := searchArguments packageName
      parser := noParser
      opt := opt }).errOnly

/-- The `argumentBuilder` closure of `List`. -/
def listArguments : Unit → List String × Option GoError :=
  fun _ => (["list", "installed"], none)

/-- The method `List`: list all installed packages. -/
def Dnf.List (exec : Executor) (a : Option Dnf) (opt : Option Options) :
    Outcome (Option GoError) :=
  (Dnf.runner exec a
    { argumentBuilder := listArguments
      parser := noParser
      opt := opt }).errOnly

/-! ## The locator of `dnf.go` -/

/-- The fragment of Go's regular expressions in which `dnfFileRegex` is
written: the assertions `^` and `$` (beginning and end of the text), a literal
code point (an escaped `\.` included), the class `\d` of the ASCII digits,
concatenation, and the option `a?`. -/
inductive Regex where
  | beginText
  | endText
  | lit (c : Char)
  | digit
  | seq (a b : Regex)
  | quest (a : Regex)
  deriving DecidableEq, Repr

/-- The class `\d`: the ASCII digits `0` to `9`. -/
def isDigit (c : Char) : Bool := 0x30 ≤ c.toNat && c.toNat ≤ 0x39

/-- Every way `re` can match at the front of `s`, a suffix of the text `input`:
the list of what is left of `s` after each possible match. -/
def Regex.ends (input : List Char) : Regex → List Char → List (List Char)
  | .beginText, s => if s.length = input.length then [s] else []
  | .endText, s => if s = [] then [s] else []
  | .lit c, s =>
    match s with
    | d :: ds => if d = c then [ds] else []
    | [] => []
  | .digit, s =>
    match s with
    | d :: ds => if isDigit d then [ds] else []
    | [] => []
  | .seq a b, s => (Regex.ends input a s).flatMap (fun rest => Regex.ends input b rest)
  | .quest a, s => Regex.ends input a s ++ [s]

/-- Whether `re` matches somewhere in the text `input`, trying the start
positions of the suffix `s` of `input` from left to right. -/
def Regex.searchFrom (re : Regex) (input : List Char) : List Char → Bool
  | [] => !(Regex.ends input re []).isEmpty
  | c :: cs => !(Regex.ends input re (c :: cs)).isEmpty || Regex.searchFrom re input cs

/-- The method `MatchString` of a compiled expression: whether the text
contains any match of it. -/
def Regex.MatchString (re : Regex) (s : String) : Bool := re.searchFrom s.data s.data

/-- The constant `dnf`, the name of the program. -/
def dnf : String := "dnf"

/-- The sub-expression `(\.\d\d?)?`, which occurs twice in `dnfFileRegex`. -/
def versionGroup : Regex :=
  .quest (.seq (.lit '.') (.seq .digit (.quest .digit)))

/-- The expression `dnfFileRegex`, compiled from `^pip3(\.\d\d?)?\.?(\.\d\d?)?$`. -/
def dnfFileRegex : Regex :=
  .seq .beginText (.seq (.lit 'p') (.seq (.lit 'i') (.seq (.lit 'p') (.seq (.lit '3')
    (.seq versionGroup (.seq (.quest (.lit '.')) (.seq versionGroup .endText)))))))

/-- The function `looksLikednf`: true if the given filename looks like a Dnf
executable. -/
def looksLikednf (name : String) : Bool := dnfFileRegex.MatchString name

/-- The search-path lookup `LookPath` of the executor behind `execCommander`:
the path found and the error of the lookup. -/
abbrev LookPath := String → String × Option GoError

/-- The function `DetectdnfBinary`: it looks `dnf` up on the search path.  The
second component lists the names looked up. -/
def DetectdnfBinary (lookPath : LookPath) : (String × Option GoError) × List String :=
  (lookPath dnf, [dnf])

/-- The directory scan `files.ExecsInPath` of the shared utilities, which is
not part of this repository: the executables of a directory that a filter on
names accepts, and the error of the scan. -/
abbrev Scanner := String → (String → Bool) → List String × Option GoError

/-- The function `DnfBinaryFrom`. -/
def DnfBinaryFrom (ExecsInPath : Scanner) (path : String) : String × Option GoError :=
  match ExecsInPath path looksLikednf with
  | (_, some err) => ("", some err)
  | (execs, none) =>
    if h : execs.length < 1 then
      ("", some (.errorString "No dnf found."))
    else
      (execs.get ⟨0, by omega⟩, none)

/-- The constructor `New`: an initialized DNF client, or `none` for the `nil`
pointer.  The second component lists the names looked up on the search path. -/
def New (lookPath : LookPath) (binaryPath : String) : Option Dnf × List String :=
  if binaryPath = "" then
    match DetectdnfBinary lookPath with
    | ((binaryPath, none), lookups) => (some ⟨binaryPath⟩, lookups)
    | ((_, some _), lookups) => (none, lookups)
  else
    (some ⟨binaryPath⟩, [])

/-! ## The words of the specification on the naming pattern -/

/-- An optional version group in the words of the specification: nothing, or
a `.` followed by one or two ASCII digits. -/
def IsVersionGroup (g : List Char) : Prop :=
  g = [] ∨ (∃ d, isDigit d = true ∧ g = ['.', d])
    ∨ (∃ d e, isDigit d = true ∧ isDigit e = true ∧ g = ['.', d, e])

/-- The naming pattern in the words of the specification: `pip3`, then an
optional version group, then an optional single `.`, then an optional version
group, with nothing before or after. -/
def IsPipName (name : String) : Prop :=
  ∃ major dot minor, IsVersionGroup major ∧ (dot = [] ∨ dot = ['.']) ∧ IsVersionGroup minor
    ∧ name.data = ['p', 'i', 'p', '3'] ++ major ++ dot ++ minor

/-- Put a code point in front of the first piece of a split. -/
def consHead (c : Char) : List (List Char) → List (List Char)
  | [] => [[c]]
  | piece :: pieces => (c :: piece) :: pieces

/-- The code points of `strings.Join lines "\n"`, for lines given by their
code points. -/
def joinLines : List (List Char) → List Char
  | [] => []
  | [a] => a
  | a :: b :: lines => a ++ '\n' :: joinLines (b :: lines)

/-! ## Splitting -/

theorem splitGo_skip (sep a b cur : List Char) :
    splitGo sep (a ++ b) a.length cur = splitGo sep b 0 cur := by
  induction a with
  | nil => simp
  | cons c a ih => simp [splitGo, ih]

theorem splitGo_cur (sep s : List Char) (k : Nat) (cur : List Char) :
    splitGo sep s k cur
      = (cur.reverse ++ (splitGo sep s k []).headD []) :: (splitGo sep s k []).tail := by
  induction s generalizing k cur with
  | nil => simp [splitGo]
  | cons c cs ih =>
    cases k with
    | succ k => simpa [splitGo] using ih k cur
    | zero =>
      by_cases h : sep.isPrefixOf (c :: cs) = true
      · simp [splitGo, h]
      · simp only [splitGo, h]
        rw [ih 0 (c :: cur), ih 0 [c]]
        simp

theorem splitGo_ne_nil (sep s : List Char) (k : Nat) (cur : List Char) :
    splitGo sep s k cur ≠ [] := by
  induction s generalizing k cur with
  | nil => simp [splitGo]
  | cons c cs ih =>
    cases k with
    | succ k => simp [splitGo, ih]
    | zero =>
      by_cases h : sep.isPrefixOf (c :: cs) = true
      · simp [splitGo, h]
      · simp [splitGo, h, ih]

theorem splitGo_cons_zero (sep : List Char) (c : Char) (cs cur : List Char) :
    splitGo sep (c :: cs) 0 cur
      = if sep.isPrefixOf (c :: cs) then cur.reverse :: splitGo sep cs (sep.length - 1) []
        else splitGo sep cs 0 (c :: cur) := by
  rw [splitGo]

theorem splitList_of_ne_nil (sep s : List Char) (hsep : sep ≠ []) :
    splitList sep s = splitGo sep s 0 [] := by
  simp [splitList, hsep]

theorem splitList_nil (sep : List Char) (hsep : sep ≠ []) : splitList sep [] = [[]] := by
  rw [splitList_of_ne_nil _ _ hsep]
  simp [splitGo]

theorem splitList_sep_append (sep b : List Char) (hsep : sep ≠ []) :
    splitList sep (sep ++ b) = [] :: splitList sep b := by
  rw [splitList_of_ne_nil _ _ hsep, splitList_of_ne_nil _ _ hsep]
  obtain ⟨c, sep', rfl⟩ := List.exists_cons_of_ne_nil hsep
  have hp : (c :: sep').isPrefixOf (c :: (sep' ++ b)) = true := by
    simp
  rw [List.cons_append, splitGo_cons_zero, if_pos hp]
  have hlen : (c :: sep').length - 1 = sep'.length := by simp
  rw [hlen, splitGo_skip]
  rfl

theorem splitList_cons_of_not_prefix (sep : List Char) (c : Char) (cs : List Char)
    (hsep : sep ≠ []) (h : sep.isPrefixOf (c :: cs) = false) :
    splitList sep (c :: cs) = consHead c (splitList sep cs) := by
  rw [splitList_of_ne_nil _ _ hsep, splitList_of_ne_nil _ _ hsep]
  rw [splitGo_cons_zero, h, if_neg (by simp), splitGo_cur]
  cases hs : splitGo sep cs 0 [] with
  | nil => exact absurd hs (splitGo_ne_nil _ _ _ _)
  | cons piece pieces => simp [consHead]

theorem splitGo_mem (sep s : List Char) (k : Nat) (cur : List Char) :
    ∀ piece ∈ splitGo sep s k cur, ∀ c ∈ piece, c ∈ cur ∨ c ∈ s := by
  induction s generalizing k cur with
  | nil =>
    intro piece hp c hc
    simp [splitGo] at hp
    subst hp
    simpa using hc
  | cons d ds ih =>
    intro piece hp c hc
    cases k with
    | succ k =>
      rw [splitGo] at hp
      rcases ih k cur piece hp c hc with h | h
      · exact Or.inl h
      · exact Or.inr (List.mem_cons_of_mem _ h)
    | zero =>
      rw [splitGo_cons_zero] at hp
      split at hp
      · rcases List.mem_cons.mp hp with h | h
        · subst h
          exact Or.inl (by simpa using hc)
        · rcases ih _ [] piece h c hc with h' | h'
          · simp at h'
          · exact Or.inr (List.mem_cons_of_mem _ h')
      · rcases ih 0 (d :: cur) piece hp c hc with h | h
        · rcases List.mem_cons.mp h with h' | h'
          · exact Or.inr (by simp [h'])
          · exact Or.inl h'
        · exact Or.inr (List.mem_cons_of_mem _ h)

theorem splitList_mem (sep s : List Char) (hsep : sep ≠ []) :
    ∀ piece ∈ splitList sep s, ∀ c ∈ piece, c ∈ s := by
  intro piece hp c hc
  rw [splitList_of_ne_nil _ _ hsep] at hp
  rcases splitGo_mem sep s 0 [] piece hp c hc with h | h
  · simp at h
  · exact h

theorem splitList_ne_nil (sep s : List Char) (hsep : sep ≠ []) : splitList sep s ≠ [] := by
  rw [splitList_of_ne_nil _ _ hsep]
  exact splitGo_ne_nil _ _ _ _

theorem consHead_append (c : Char) (l m : List (List Char)) (hl : l ≠ []) :
    consHead c (l ++ m) = consHead c l ++ m := by
  cases l with
  | nil => exact absurd rfl hl
  | cons piece pieces => rfl

/-! ### Splitting into lines -/

theorem splitList_nl_cons (c : Char) (cs : List Char) :
    splitList ['\n'] (c :: cs)
      = if c = '\n' then [] :: splitList ['\n'] cs else consHead c (splitList ['\n'] cs) := by
  split
  · next h =>
    subst h
    exact splitList_sep_append ['\n'] cs (by simp)
  · next h =>
    apply splitList_cons_of_not_prefix _ _ _ (by simp)
    simp [List.isPrefixOf]
    intro h'
    exact absurd h'.symm h

theorem splitList_nl_append (a b : List Char) :
    splitList ['\n'] (a ++ '\n' :: b) = splitList ['\n'] a ++ splitList ['\n'] b := by
  induction a with
  | nil =>
    rw [List.nil_append, splitList_nl_cons, if_pos rfl, splitList_nil _ (by simp)]
    rfl
  | cons c a ih =>
    rw [List.cons_append, splitList_nl_cons, splitList_nl_cons, ih]
    split
    · rfl
    · exact consHead_append _ _ _ (splitList_ne_nil _ _ (by simp))

theorem Split_nl_append (s t : String) :
    Split (s ++ "\n" ++ t) "\n" = Split s "\n" ++ Split t "\n" := by
  have h : (s ++ "\n" ++ t).data = s.data ++ '\n' :: t.data := by
    simp [String.data_append]
  have hn : ("\n" : String).data = ['\n'] := rfl
  simp only [Split, h, hn, splitList_nl_append, List.map_append]

/-! ## Trimming -/

theorem trimLeft_of_all_space (w : List Char) (hw : ∀ c ∈ w, isSpace c = true) :
    trimLeft w = [] := by
  simpa [trimLeft, List.dropWhile_eq_nil_iff] using hw

theorem TrimSpace_of_all_space (w : String) (hw : ∀ c ∈ w.data, isSpace c = true) :
    TrimSpace w = "" := by
  simp only [TrimSpace, trimLeft_of_all_space _ hw]
  rfl

/-! ## The loop of the `Depends` parser -/

theorem dependsLoop_err (lines : List String) (dependencies : List Package) :
    (dependsLoop lines dependencies).2 = none := by
  induction lines generalizing dependencies with
  | nil => rfl
  | cons line lines ih =>
    simp only [dependsLoop]
    split
    · rfl
    · split
      · split <;> exact ih _
      · exact ih _

theorem dependsLoop_blank (before after : List String) (blank : String)
    (dependencies : List Package) (hb : TrimSpace blank = "") :
    dependsLoop (before ++ blank :: after) dependencies = dependsLoop before dependencies := by
  induction before generalizing dependencies with
  | nil => simp [dependsLoop, hb]
  | cons line lines ih =>
    simp only [List.cons_append, dependsLoop]
    split
    · rfl
    · split
      · split <;> exact ih _
      · exact ih _

theorem Split_nl_blank_head (w t : String) (hw : ∀ c ∈ w.data, isSpace c = true) :
    ∃ blank rest, Split (w ++ "\n" ++ t) "\n" = blank :: rest ∧ TrimSpace blank = "" := by
  rw [Split_nl_append]
  have hn : ("\n" : String).data = ['\n'] := rfl
  cases hs : splitList ['\n'] w.data with
  | nil => exact absurd hs (splitList_ne_nil _ _ (by simp))
  | cons piece pieces =>
    refine ⟨⟨piece⟩, pieces.map String.mk ++ Split t "\n", ?_, ?_⟩
    · simp [Split, hn, hs]
    · apply TrimSpace_of_all_space
      intro c hc
      exact hw c (splitList_mem ['\n'] w.data (by simp) piece (by simp [hs]) c hc)

theorem dependsLoop_acc (lines : List String) (dependencies : List Package) :
    dependsLoop lines dependencies
      = (some (dependencies ++ packagesOf (dependsLoop lines [])), none) := by
  induction lines generalizing dependencies with
  | nil => simp [dependsLoop, packagesOf]
  | cons line lines ih =>
    simp only [dependsLoop]
    split
    · simp [packagesOf]
    · split
      · split
        · rw [ih (dependencies ++ _), ih ([] ++ _)]
          simp [packagesOf]
        · exact ih _
      · exact ih _

theorem dependsLoop_append (before rest : List String) (dependencies : List Package)
    (hb : ∀ l ∈ before, TrimSpace l ≠ "") :
    dependsLoop (before ++ rest) dependencies
      = dependsLoop rest (packagesOf (dependsLoop before dependencies)) := by
  induction before generalizing dependencies with
  | nil => simp [dependsLoop, packagesOf]
  | cons line lines ih =>
    have hl : TrimSpace line ≠ "" := hb line (by simp)
    have hls : ∀ l ∈ lines, TrimSpace l ≠ "" := fun l h => hb l (by simp [h])
    simp only [List.cons_append, dependsLoop, hl, if_false]
    split
    · split <;> exact ih _ hls
    · exact ih _ hls

theorem splitList_nl_of_no_nl (x : List Char) (hx : '\n' ∉ x) :
    splitList ['\n'] x = [x] := by
  induction x with
  | nil => exact splitList_nil _ (by simp)
  | cons c cs ih =>
    have hc : c ≠ '\n' := fun h => hx (by simp [h])
    have hcs : '\n' ∉ cs := fun h => hx (by simp [h])
    rw [splitList_nl_cons, if_neg hc, ih hcs]
    rfl

theorem Split_nl_of_no_nl (l : String) (hl : '\n' ∉ l.data) : Split l "\n" = [l] := by
  have hn : ("\n" : String).data = ['\n'] := rfl
  simp [Split, hn, splitList_nl_of_no_nl _ hl]

theorem Split_Join_nl (lines : List String) (hne : lines ≠ [])
    (hl : ∀ l ∈ lines, '\n' ∉ l.data) : Split (Join lines "\n") "\n" = lines := by
  induction lines with
  | nil => exact absurd rfl hne
  | cons a rest ih =>
    cases rest with
    | nil => exact Split_nl_of_no_nl a (hl a (by simp))
    | cons b rest =>
      rw [Join, Split_nl_append, Split_nl_of_no_nl a (hl a (by simp)),
        ih (by simp) (fun l h => hl l (by simp [h]))]
      rfl

theorem dependsParser_Join (lines : List String) (hl : ∀ l ∈ lines, '\n' ∉ l.data) :
    dependsParser (Join lines "\n") = dependsLoop lines [] := by
  cases lines with
  | nil => decide
  | cons a rest => rw [dependsParser, Split_Join_nl _ (by simp) hl]

/-! ## The facade operations -/

theorem runner_of_builder_error (exec : Executor) (a : Option Dnf) (params : runnerParams)
    (arguments : List String) (err : GoError)
    (hb : params.argumentBuilder () = (arguments, some err)) :
    Dnf.runner exec a params = .returned (none, some (Errorf "runner: " err)) [] := by
  simp [Dnf.runner, hb]

theorem runner_of_stderr_panic (exec : Executor) (a : Dnf) (opt : Options)
    (params : runnerParams) (arguments : List String)
    (hb : params.argumentBuilder () = (arguments, none)) (ho : params.opt = some opt)
    (hs : stderrWritePanics ⟨a.binaryPath, arguments ++ processOptions opt, opt.Output⟩
      (exec ⟨a.binaryPath, arguments ++ processOptions opt, opt.Output⟩) = true) :
    Dnf.runner exec (some a) params
      = .panicked [⟨a.binaryPath, arguments ++ processOptions opt, opt.Output⟩] := by
  simp [Dnf.runner, hb, ho, hs]

theorem runner_of_run_error (exec : Executor) (a : Dnf) (opt : Options)
    (params : runnerParams) (arguments : List String) (err : GoError)
    (hb : params.argumentBuilder () = (arguments, none)) (ho : params.opt = some opt)
    (hs : stderrWritePanics ⟨a.binaryPath, arguments ++ processOptions opt, opt.Output⟩
      (exec ⟨a.binaryPath, arguments ++ processOptions opt, opt.Output⟩) = false)
    (hr : (exec ⟨a.binaryPath, arguments ++ processOptions opt, opt.Output⟩).err = some err) :
    Dnf.runner exec (some a) params
      = .returned (none, some err)
          [⟨a.binaryPath, arguments ++ processOptions opt, opt.Output⟩] := by
  simp [Dnf.runner, hb, ho, hs, hr]

theorem runner_of_run_ok (exec : Executor) (a : Dnf) (opt : Options)
    (params : runnerParams) (arguments : List String)
    (hb : params.argumentBuilder () = (arguments, none)) (ho : params.opt = some opt)
    (hs : stderrWritePanics ⟨a.binaryPath, arguments ++ processOptions opt, opt.Output⟩
      (exec ⟨a.binaryPath, arguments ++ processOptions opt, opt.Output⟩) = false)
    (hr : (exec ⟨a.binaryPath, arguments ++ processOptions opt, opt.Output⟩).err = none)
    (hp : ∀ output, (params.parser output).2 = none) :
    Dnf.runner exec (some a) params
      = .returned
          (params.parser
            (exec ⟨a.binaryPath, arguments ++ processOptions opt, opt.Output⟩).stdout)
          [⟨a.binaryPath, arguments ++ processOptions opt, opt.Output⟩] := by
  simp only [Dnf.runner, hb, ho, hs, hr]
  generalize hq : params.parser _ = parsed
  obtain ⟨pkgs, perr⟩ := parsed
  have := hp (exec ⟨a.binaryPath, arguments ++ processOptions opt, opt.Output⟩).stdout
  rw [hq] at this
  simp at this
  subst this
  rfl

theorem runner_spawned (exec : Executor) (a : Dnf) (opt : Options)
    (params : runnerParams) (arguments : List String)
    (hb : params.argumentBuilder () = (arguments, none)) (ho : params.opt = some opt) :
    (Dnf.runner exec (some a) params).spawned
      = [⟨a.binaryPath, arguments ++ processOptions opt, opt.Output⟩] := by
  simp only [Dnf.runner, hb, ho]
  split
  · rfl
  · split
    · rfl
    · split <;> rfl

theorem errOnly_spawned (o : Outcome Result) : o.errOnly.spawned = o.spawned := by
  cases o <;> rfl

theorem runner_errOnly (exec : Executor) (a : Dnf) (opt : Options)
    (params : runnerParams) (arguments : List String)
    (hb : params.argumentBuilder () = (arguments, none)) (ho : params.opt = some opt)
    (hp : params.parser = noParser) :
    (Dnf.runner exec (some a) params).errOnly
      = if stderrWritePanics ⟨a.binaryPath, arguments ++ processOptions opt, opt.Output⟩
            (exec ⟨a.binaryPath, arguments ++ processOptions opt, opt.Output⟩) = true then
          .panicked [⟨a.binaryPath, arguments ++ processOptions opt, opt.Output⟩]
        else
          .returned (exec ⟨a.binaryPath, arguments ++ processOptions opt, opt.Output⟩).err
            [⟨a.binaryPath, arguments ++ processOptions opt, opt.Output⟩] := by
  split
  · next hs =>
    rw [runner_of_stderr_panic exec a opt params arguments hb ho hs]
    rfl
  · next hs =>
    have hs' := Bool.eq_false_iff.mpr hs
    cases hr : (exec ⟨a.binaryPath, arguments ++ processOptions opt, opt.Output⟩).err with
    | some err => rw [runner_of_run_error exec a opt params arguments err hb ho hs' hr]; rfl
    | none =>
      rw [runner_of_run_ok exec a opt params arguments hb ho hs' hr (by simp [hp, noParser])]
      simp [hp, noParser, Outcome.errOnly]

theorem blank_name_depends (exec : Executor) (a : Option Dnf) (packageName : String)
    (opt : Option Options) (hblank : TrimSpace packageName = "") :
    Dnf.Depends exec a packageName opt
      = .returned
          (none, some (Errorf "runner: " (Errorf "Depends: " errPackageNameNotSpecified))) [] := by
  unfold Dnf.Depends
  rw [runner_of_builder_error exec a _ [] (Errorf "Depends: " errPackageNameNotSpecified)
    (by simp [dependsArguments, hblank])]

theorem updateArguments_eq (packageName : String) :
    updateArguments packageName ()
      = (if TrimSpace packageName = "" then ["update"] else ["update", packageName], none) := by
  unfold updateArguments
  split <;> rfl

theorem Update_outcome (exec : Executor) (a : Dnf) (packageName : String)
    (opt : Options) :
    Dnf.Update exec (some a) packageName (some opt)
      = if stderrWritePanics
            ⟨a.binaryPath,
              (if TrimSpace packageName = "" then ["update"] else ["update", packageName])
                ++ processOptions opt, opt.Output⟩
            (exec ⟨a.binaryPath,
              (if TrimSpace packageName = "" then ["update"] else ["update", packageName])
                ++ processOptions opt, opt.Output⟩) = true then
          .panicked
            [⟨a.binaryPath,
              (if TrimSpace packageName = "" then ["update"] else ["update", packageName])
                ++ processOptions opt, opt.Output⟩]
        else
          .returned
            (exec ⟨a.binaryPath,
              (if TrimSpace packageName = "" then ["update"] else ["update", packageName])
                ++ processOptions opt, opt.Output⟩).err
            [⟨a.binaryPath,
              (if TrimSpace packageName = "" then ["update"] else ["update", packageName])
                ++ processOptions opt, opt.Output⟩] :=
  runner_errOnly exec a opt
    { argumentBuilder := updateArguments packageName, parser := noParser, opt := some opt }
    _ (updateArguments_eq packageName) rfl rfl

theorem Depends_outcome_of_no_panic (exec : Executor) (a : Dnf) (packageName : String)
    (opt : Options) (hname : TrimSpace packageName ≠ "")
    (hs : stderrWritePanics
      ⟨a.binaryPath, ["repoquery", "--deplist", packageName] ++ processOptions opt, opt.Output⟩
      (exec ⟨a.binaryPath, ["repoquery", "--deplist", packageName] ++ processOptions opt,
        opt.Output⟩) = false) :
    Dnf.Depends exec (some a) packageName (some opt)
      = match (exec ⟨a.binaryPath,
            ["repoquery", "--deplist", packageName] ++ processOptions opt, opt.Output⟩).err with
        | some err =>
          .returned (none, some err)
            [⟨a.binaryPath, ["repoquery", "--deplist", packageName] ++ processOptions opt,
              opt.Output⟩]
        | none =>
          .returned
            (dependsParser (exec ⟨a.binaryPath,
              ["repoquery", "--deplist", packageName] ++ processOptions opt,
              opt.Output⟩).stdout)
            [⟨a.binaryPath, ["repoquery", "--deplist", packageName] ++ processOptions opt,
              opt.Output⟩] := by
  have hb : dependsArguments packageName ()
      = (["repoquery", "--deplist", packageName], none) := by
    simp [dependsArguments, hname]
  unfold Dnf.Depends
  split
  · next err hr => exact runner_of_run_error exec a opt _ _ err hb rfl hs hr
  · next hr =>
    exact runner_of_run_ok exec a opt _ _ hb rfl hs hr (fun _ => dependsLoop_err _ _)

/-! ## The claims of the specification -/

/-- C1: a blank line terminates dependency parsing.  For every text `s`, every
text `w` made of white space only (possibly empty, possibly with line breaks)
and every text `t`, the `Depends` parser gives on `s ++ "\n" ++ w ++ "\n" ++ t`
exactly what it gives on `s`, with a `nil` error; on the four-line example it
gives `foo-1.0` and `bar-2.0` and not `baz-3.0`. -/
theorem depends_parser_stops_at_blank_line (s w t : String)
    (hw : ∀ c ∈ w.data, isSpace c = true) :
    dependsParser (s ++ "\n" ++ w ++ "\n" ++ t) = dependsParser s
      ∧ (dependsParser (s ++ "\n" ++ w ++ "\n" ++ t)).2 = none
      ∧ dependsParser "provider: foo-1.0\nprovider: bar-2.0\n\nprovider: baz-3.0"
          = (some [{ Name := "foo-1.0" }, { Name := "bar-2.0" }], none)
      ∧ (∀ p ∈ packagesOf
            (dependsParser "provider: foo-1.0\nprovider: bar-2.0\n\nprovider: baz-3.0"),
          p.Name ≠ "baz-3.0") := by
  have key : dependsParser (s ++ "\n" ++ w ++ "\n" ++ t) = dependsParser s := by
    have hassoc : s ++ "\n" ++ w ++ "\n" ++ t = s ++ "\n" ++ (w ++ "\n" ++ t) := by
      simp [String.append_assoc]
    obtain ⟨blank, rest, hsplit, hblank⟩ := Split_nl_blank_head w t hw
    unfold dependsParser
    rw [hassoc, Split_nl_append, hsplit]
    exact dependsLoop_blank _ _ _ _ hblank
  refine ⟨key, dependsLoop_err _ _, by decide, by decide⟩

/-- Witness for C1: one provider line, a line of a blank and a tab, one more
provider line. -/
theorem depends_parser_stops_at_blank_line_witness :
    (∀ c ∈ (" \t" : String).data, isSpace c = true)
      ∧ dependsParser ("provider: a" ++ "\n" ++ " \t" ++ "\n" ++ "provider: b")
          = dependsParser "provider: a"
      ∧ dependsParser "provider: a" = (some [{ Name := "a" }], none) :=
  ⟨by decide,
   (depends_parser_stops_at_blank_line "provider: a" " \t" "provider: b" (by decide)).1,
   by decide⟩

/-- C2: a provider line contributes an entry exactly when it splits in two.
For a line standing before the first blank line whose trimmed text begins with
`provider:`, the parser's list is the list of the lines before it, then one
`Package` (named by the second part) if splitting the trimmed text on `": "`
yields exactly two parts and nothing otherwise, then the list of the lines
after it; so `provider:onlyonepart` alone parses to the empty list. -/
theorem provider_line_entry_iff_two_parts (before after : List String) (line : String)
    (hnl : ∀ l ∈ before ++ line :: after, '\n' ∉ l.data)
    (hb : ∀ l ∈ before, TrimSpace l ≠ "")
    (hp : HasPrefix (TrimSpace line) "provider:" = true) :
    dependsParser (Join (before ++ line :: after) "\n")
        = (some (packagesOf (dependsParser (Join before "\n"))
            ++ (if (Split (TrimSpace line) ": ").length = 2
                then [{ Name := (Split (TrimSpace line) ": ").getD 1 "" }] else [])
            ++ packagesOf (dependsParser (Join after "\n"))), none)
      ∧ dependsParser "provider:onlyonepart" = (some [], none) := by
  refine ⟨?_, by decide⟩
  have hne : TrimSpace line ≠ "" := by
    intro h
    rw [h] at hp
    exact absurd hp (by decide)
  rw [dependsParser_Join _ hnl,
    dependsParser_Join before (fun l h => hnl l (by simp [h])),
    dependsParser_Join after (fun l h => hnl l (by simp [h])),
    dependsLoop_append _ _ _ hb]
  simp only [dependsLoop, hne, hp, if_false, if_true]
  generalize packagesOf (dependsLoop before []) = found
  rcases hs : Split (TrimSpace line) ": " with _ | ⟨a, _ | ⟨b, _ | ⟨c, r⟩⟩⟩
  · rw [dependsLoop_acc after found]; simp
  · rw [dependsLoop_acc after found]; simp
  · show dependsLoop after (found ++ [{ Name := b }]) = _
    rw [dependsLoop_acc after (found ++ _)]; simp
  · rw [dependsLoop_acc after found]; simp

/-- Witness for C2: a header line, a padded provider line with a separator,
then a provider line without one, a blank line and a last line. -/
theorem provider_line_entry_iff_two_parts_witness :
    (∀ l ∈ ["header"] ++ " provider: x " :: ["provider:y", "", "provider: z"],
        '\n' ∉ l.data)
      ∧ (∀ l ∈ ["header"], TrimSpace l ≠ "")
      ∧ HasPrefix (TrimSpace " provider: x ") "provider:" = true
      ∧ dependsParser (Join (["header"] ++ " provider: x "
            :: ["provider:y", "", "provider: z"]) "\n")
          = (some [{ Name := "x" }], none) :=
  ⟨by decide, by decide, by decide,
   (provider_line_entry_iff_two_parts ["header"] ["provider:y", "", "provider: z"]
      " provider: x " (by decide) (by decide) (by decide)).1.trans (by decide)⟩

/-- C3: the option-to-flag translation has a fixed order.  For every options
value, `processOptions` is the concatenation of the dry-run flags, the verbose
flag, the assume-yes flag (present when `NotAssumeYes` is false) and the
destination flags (present when `DestDir` is non-empty), in this order; with
all four switched on and `DestDir = "/x"` it is
`--setopt tsflags=test --verbose --assumeyes --destdir /x`. -/
theorem processOptions_fixed_order (opt : Options) :
    processOptions opt
        = (if opt.DryRun = true then ["--setopt", "tsflags=test"] else [])
          ++ (if opt.Verbose = true then ["--verbose"] else [])
          ++ (if opt.NotAssumeYes = false then ["--assumeyes"] else [])
          ++ (if opt.DestDir ≠ "" then ["--destdir", opt.DestDir] else [])
      ∧ processOptions
          { DryRun := true, Verbose := true, NotAssumeYes := false, DestDir := "/x",
            Output := opt.Output }
          = ["--setopt", "tsflags=test", "--verbose", "--assumeyes", "--destdir", "/x"] := by
  refine ⟨?_, by simp [processOptions]⟩
  obtain ⟨verbose, dryRun, output, notAssumeYes, destDir⟩ := opt
  by_cases hd : destDir = "" <;> cases verbose <;> cases dryRun <;> cases notAssumeYes <;>
    simp [processOptions, hd]

/-- C4: with `NotAssumeYes` set and every other switch off the flag suffix is
empty, and the suffix is empty only then: `processOptions opt = []` holds
exactly when `DryRun` and `Verbose` are false, `NotAssumeYes` is true and
`DestDir` is empty; the `Output` field has no effect on the suffix. -/
theorem processOptions_empty_iff (opt : Options) (output : Option Writer) :
    processOptions { NotAssumeYes := true, Output := output } = []
      ∧ (processOptions opt = [] ↔
          opt.DryRun = false ∧ opt.Verbose = false ∧ opt.NotAssumeYes = true
            ∧ opt.DestDir = "")
      ∧ processOptions { opt with Output := output } = processOptions opt := by
  refine ⟨by simp [processOptions], ?_, by simp [processOptions]⟩
  obtain ⟨verbose, dryRun, out, notAssumeYes, destDir⟩ := opt
  by_cases hd : destDir = "" <;> cases verbose <;> cases dryRun <;> cases notAssumeYes <;>
    simp [processOptions, hd]

/-- C5: a blank package name is an argument error and nothing is spawned.  For
every name that `strings.TrimSpace` reduces to the empty string, every
executor, every receiver and every options pointer (`nil` included),
`Install`, `Remove`, `Depends` and `Search` return the error built from
`errPackageNameNotSpecified`, `Depends` returns the `nil` list with it, and the
list of commands run is empty. -/
theorem blank_name_is_argument_error (exec : Executor) (a : Option Dnf)
    (packageName : String) (opt : Option Options) (hblank : TrimSpace packageName = "") :
    Dnf.Install exec a packageName opt
        = .returned (some (Errorf "runner: " (Errorf "Install: " errPackageNameNotSpecified))) []
      ∧ Dnf.Remove exec a packageName opt
        = .returned (some (Errorf "runner: " (Errorf "Remove: " errPackageNameNotSpecified))) []
      ∧ Dnf.Depends exec a packageName opt
        = .returned
            (none, some (Errorf "runner: " (Errorf "Depends: " errPackageNameNotSpecified))) []
      ∧ Dnf.Search exec a packageName opt
        = .returned (some (Errorf "runner: " (Errorf "Remove: " errPackageNameNotSpecified))) []
      ∧ (Dnf.Install exec a packageName opt).spawned = []
      ∧ (Dnf.Remove exec a packageName opt).spawned = []
      ∧ (Dnf.Depends exec a packageName opt).spawned = []
      ∧ (Dnf.Search exec a packageName opt).spawned = [] := by
  have hi : Dnf.Install exec a packageName opt
      = .returned (some (Errorf "runner: " (Errorf "Install: " errPackageNameNotSpecified))) [] := by
    unfold Dnf.Install
    rw [runner_of_builder_error exec a _ [] (Errorf "Install: " errPackageNameNotSpecified)
      (by simp [installArguments, hblank])]
    rfl
  have hr : Dnf.Remove exec a packageName opt
      = .returned (some (Errorf "runner: " (Errorf "Remove: " errPackageNameNotSpecified))) [] := by
    unfold Dnf.Remove
    rw [runner_of_builder_error exec a _ [] (Errorf "Remove: " errPackageNameNotSpecified)
      (by simp [removeArguments, hblank])]
    rfl
  have hd : Dnf.Depends exec a packageName opt
      = .returned
          (none, some (Errorf "runner: " (Errorf "Depends: " errPackageNameNotSpecified))) [] := by
    unfold Dnf.Depends
    rw [runner_of_builder_error exec a _ [] (Errorf "Depends: " errPackageNameNotSpecified)
      (by simp [dependsArguments, hblank])]
  have hs : Dnf.Search exec a packageName opt
      = .returned (some (Errorf "runner: " (Errorf "Remove: " errPackageNameNotSpecified))) [] := by
    unfold Dnf.Search
    rw [runner_of_builder_error exec a _ [] (Errorf "Remove: " errPackageNameNotSpecified)
      (by simp [searchArguments, hblank])]
    rfl
  refine ⟨hi, hr, hd, hs, ?_, ?_, ?_, ?_⟩
  · rw [hi]; rfl
  · rw [hr]; rfl
  · rw [hd]; rfl
  · rw [hs]; rfl

/-- Witness for C5: the name made of a blank, a tab and a line break, an
executor that would succeed, no receiver and no options. -/
theorem blank_name_is_argument_error_witness :
    TrimSpace " \t\n" = ""
      ∧ Dnf.Install (fun _ => ⟨"", "", none⟩) none " \t\n" none
        = .returned (some (.errorString "runner: Install: packageName was not specified.")) []
      ∧ (Dnf.Depends (fun _ => ⟨"", "", none⟩) none " \t\n" none).spawned = [] :=
  ⟨by decide,
   (blank_name_is_argument_error (fun _ => ⟨"", "", none⟩) none " \t\n" none (by decide)).1,
   (blank_name_is_argument_error (fun _ => ⟨"", "", none⟩) none
      " \t\n" none (by decide)).2.2.2.2.2.2.1⟩

/-- C6: `Update` never raises an argument error.  Its argument builder gives
`["update"]` with a `nil` error for a blank name and `["update", packageName]`,
the name untrimmed, otherwise; the call runs exactly one command, the client's
binary with these arguments followed by `processOptions opt`. -/
theorem update_never_argument_error (exec : Executor) (a : Dnf) (packageName : String)
    (opt : Options) :
    updateArguments packageName ()
        = (if TrimSpace packageName = "" then ["update"] else ["update", packageName], none)
      ∧ (Dnf.Update exec (some a) packageName (some opt)).spawned
        = [⟨a.binaryPath,
            (if TrimSpace packageName = "" then ["update"] else ["update", packageName])
              ++ processOptions opt, opt.Output⟩]
      ∧ (Dnf.Update exec (some a) packageName (some opt)).spawned.length = 1 := by
  have hb := updateArguments_eq packageName
  have hs : (Dnf.Update exec (some a) packageName (some opt)).spawned
      = [⟨a.binaryPath,
          (if TrimSpace packageName = "" then ["update"] else ["update", packageName])
            ++ processOptions opt, opt.Output⟩] := by
    unfold Dnf.Update
    rw [errOnly_spawned]
    exact runner_spawned exec a opt _ _ hb rfl
  refine ⟨hb, hs, ?_⟩
  rw [hs]
  rfl

/-- C7: operation arguments come first, option flags after.  For every client,
every options value and every name that is not blank, `Install`, `Remove`,
`Depends` and `List` run exactly one command: the client's stored binary path
with the arguments `["install", name]`, `["remove", name]`,
`["repoquery", "--deplist", name]`, `["list", "installed"]` respectively,
followed by `processOptions opt`; the name is passed untrimmed. -/
theorem operation_arguments_then_flags (exec : Executor) (a : Dnf) (packageName : String)
    (opt : Options) (hname : TrimSpace packageName ≠ "") :
    (Dnf.Install exec (some a) packageName (some opt)).spawned
        = [⟨a.binaryPath, ["install", packageName] ++ processOptions opt, opt.Output⟩]
      ∧ (Dnf.Remove exec (some a) packageName (some opt)).spawned
        = [⟨a.binaryPath, ["remove", packageName] ++ processOptions opt, opt.Output⟩]
      ∧ (Dnf.Depends exec (some a) packageName (some opt)).spawned
        = [⟨a.binaryPath, ["repoquery", "--deplist", packageName] ++ processOptions opt,
            opt.Output⟩]
      ∧ (Dnf.List exec (some a) (some opt)).spawned
        = [⟨a.binaryPath, ["list", "installed"] ++ processOptions opt, opt.Output⟩] := by
  refine ⟨?_, ?_, ?_, ?_⟩
  · unfold Dnf.Install
    rw [errOnly_spawned]
    exact runner_spawned exec a opt _ ["install", packageName]
      (by simp [installArguments, hname]) rfl
  · unfold Dnf.Remove
    rw [errOnly_spawned]
    exact runner_spawned exec a opt _ ["remove", packageName]
      (by simp [removeArguments, hname]) rfl
  · unfold Dnf.Depends
    exact runner_spawned exec a opt _ ["repoquery", "--deplist", packageName]
      (by simp [dependsArguments, hname]) rfl
  · unfold Dnf.List
    rw [errOnly_spawned]
    exact runner_spawned exec a opt _ ["list", "installed"] rfl rfl

/-- Witness for C7: installing ` vim ` (with its blanks) through `/usr/bin/dnf`
in verbose mode. -/
theorem operation_arguments_then_flags_witness :
    TrimSpace " vim " ≠ ""
      ∧ (Dnf.Install (fun _ => ⟨"", "", none⟩) (some ⟨"/usr/bin/dnf"⟩) " vim "
            (some { Verbose := true })).spawned
          = [⟨"/usr/bin/dnf", ["install", " vim ", "--verbose", "--assumeyes"], none⟩] :=
  ⟨by decide,
   (operation_arguments_then_flags (fun _ => ⟨"", "", none⟩) ⟨"/usr/bin/dnf"⟩ " vim "
      { Verbose := true } (by decide)).1.trans (by decide)⟩

/-- C8: `Search` never passes its search term.  For names that are not blank
the argument builder of `Search` gives the empty vector with a `nil` error, the
one command run has exactly `processOptions opt` as its arguments, and the
whole outcome is the same for any two such names. -/
theorem search_drops_its_term (exec : Executor) (a : Dnf) (packageName other : String)
    (opt : Options) (hname : TrimSpace packageName ≠ "") (hother : TrimSpace other ≠ "") :
    searchArguments packageName () = ([], none)
      ∧ (Dnf.Search exec (some a) packageName (some opt)).spawned
        = [⟨a.binaryPath, processOptions opt, opt.Output⟩]
      ∧ Dnf.Search exec (some a) packageName (some opt)
        = Dnf.Search exec (some a) other (some opt) := by
  have hb : searchArguments packageName () = ([], none) := by
    simp [searchArguments, hname]
  have hsame : searchArguments packageName = searchArguments other := by
    funext u
    simp [searchArguments, hname, hother]
  refine ⟨hb, ?_, ?_⟩
  · unfold Dnf.Search
    rw [errOnly_spawned]
    exact runner_spawned exec a opt _ [] hb rfl
  · unfold Dnf.Search
    rw [hsame]

/-- Witness for C8: searching `vim` and searching `emacs` in dry-run mode. -/
theorem search_drops_its_term_witness :
    TrimSpace "vim" ≠ "" ∧ TrimSpace "emacs" ≠ ""
      ∧ (Dnf.Search (fun _ => ⟨"", "", none⟩) (some ⟨"dnf"⟩) "vim"
            (some { DryRun := true })).spawned
          = [⟨"dnf", ["--setopt", "tsflags=test", "--assumeyes"], none⟩] :=
  ⟨by decide, by decide,
   (search_drops_its_term (fun _ => ⟨"", "", none⟩) ⟨"dnf"⟩ "vim" "emacs"
      { DryRun := true } (by decide) (by decide)).2.1.trans (by decide)⟩

/-- C9: the code at the input where it departs from the claim.  The run fails
with `exit status 1` after writing to standard error.  With `Output` set,
`Install` and `Depends` panic once the command has run, where the claim has
them return that error; with `Output` unset the same run makes them return the
error unwrapped, `Depends` with the `nil` list. -/
theorem run_failure_with_stderr_panics :
    Dnf.Install (fun _ => ⟨"", "Error: boom\n", some (.execError "exit status 1")⟩)
          (some ⟨"dnf"⟩) "vim" (some { Output := some ⟨1⟩ })
        = .panicked [⟨"dnf", ["install", "vim", "--assumeyes"], some ⟨1⟩⟩]
      ∧ Dnf.Depends (fun _ => ⟨"", "Error: boom\n", some (.execError "exit status 1")⟩)
          (some ⟨"dnf"⟩) "vim" (some { Output := some ⟨1⟩ })
        = .panicked [⟨"dnf", ["repoquery", "--deplist", "vim", "--assumeyes"], some ⟨1⟩⟩]
      ∧ Dnf.Install (fun _ => ⟨"", "Error: boom\n", some (.execError "exit status 1")⟩)
          (some ⟨"dnf"⟩) "vim" (some { Output := none })
        = .returned (some (.execError "exit status 1"))
            [⟨"dnf", ["install", "vim", "--assumeyes"], none⟩]
      ∧ Dnf.Depends (fun _ => ⟨"", "Error: boom\n", some (.execError "exit status 1")⟩)
          (some ⟨"dnf"⟩) "vim" (some { Output := none })
        = .returned (none, some (.execError "exit status 1"))
            [⟨"dnf", ["repoquery", "--deplist", "vim", "--assumeyes"], none⟩] :=
  ⟨by decide, by decide, by decide, by decide⟩

/-- C10: the code at the input where it departs from the claim.  The run
succeeds, prints one provider line and writes a warning to standard error.
With `Output` set, `Depends` and `Install` panic once the command has run,
where the claim has them return a `nil` error (and `Depends` the parsed list);
with `Output` unset the same run gives the parsed list and a `nil` error. -/
theorem successful_run_with_stderr_panics :
    Dnf.Depends (fun _ => ⟨"provider: glibc-2.38\n", "warning: cache expired\n", none⟩)
          (some ⟨"dnf"⟩) "vim" (some { Output := some ⟨1⟩ })
        = .panicked [⟨"dnf", ["repoquery", "--deplist", "vim", "--assumeyes"], some ⟨1⟩⟩]
      ∧ Dnf.Install (fun _ => ⟨"provider: glibc-2.38\n", "warning: cache expired\n", none⟩)
          (some ⟨"dnf"⟩) "vim" (some { Output := some ⟨1⟩ })
        = .panicked [⟨"dnf", ["install", "vim", "--assumeyes"], some ⟨1⟩⟩]
      ∧ Dnf.Depends (fun _ => ⟨"provider: glibc-2.38\n", "warning: cache expired\n", none⟩)
          (some ⟨"dnf"⟩) "vim" (some { Output := none })
        = .returned (some [{ Name := "glibc-2.38" }], none)
            [⟨"dnf", ["repoquery", "--deplist", "vim", "--assumeyes"], none⟩]
      ∧ Dnf.Install (fun _ => ⟨"provider: glibc-2.38\n", "warning: cache expired\n", none⟩)
          (some ⟨"dnf"⟩) "vim" (some { Output := none })
        = .returned none [⟨"dnf", ["install", "vim", "--assumeyes"], none⟩] :=
  ⟨by decide, by decide, by decide, by decide⟩

/-! ## The naming pattern of the locator -/

theorem mem_ends_beginText (input s rest : List Char) :
    rest ∈ Regex.ends input .beginText s ↔ s.length = input.length ∧ rest = s := by
  unfold Regex.ends
  split <;> simp_all

theorem mem_ends_endText (input s rest : List Char) :
    rest ∈ Regex.ends input .endText s ↔ s = [] ∧ rest = [] := by
  unfold Regex.ends
  split <;> simp_all

theorem mem_ends_lit (input s rest : List Char) (c : Char) :
    rest ∈ Regex.ends input (.lit c) s ↔ s = c :: rest := by
  cases s with
  | nil => simp [Regex.ends]
  | cons d ds =>
    by_cases h : d = c
    · simp [Regex.ends, h, eq_comm]
    · simp [Regex.ends, h]

theorem mem_ends_digit (input s rest : List Char) :
    rest ∈ Regex.ends input .digit s ↔ ∃ d, isDigit d = true ∧ s = d :: rest := by
  cases s with
  | nil => simp [Regex.ends]
  | cons d ds =>
    by_cases h : isDigit d = true
    · simp only [Regex.ends, h, if_true, List.mem_singleton]
      constructor
      · rintro rfl
        exact ⟨d, h, rfl⟩
      · rintro ⟨e, _, he⟩
        simp at he
        exact he.2.symm
    · simp only [Regex.ends, h]
      constructor
      · intro hm
        simp at hm
      · rintro ⟨e, he, heq⟩
        simp at heq
        rw [heq.1] at h
        exact absurd he h

theorem mem_ends_seq (input s rest : List Char) (a b : Regex) :
    rest ∈ Regex.ends input (.seq a b) s
      ↔ ∃ mid, mid ∈ Regex.ends input a s ∧ rest ∈ Regex.ends input b mid := by
  simp [Regex.ends]

theorem mem_ends_quest (input s rest : List Char) (a : Regex) :
    rest ∈ Regex.ends input (.quest a) s ↔ rest ∈ Regex.ends input a s ∨ rest = s := by
  simp [Regex.ends]

theorem mem_ends_versionGroup (input s rest : List Char) :
    rest ∈ Regex.ends input versionGroup s ↔ ∃ g, IsVersionGroup g ∧ s = g ++ rest := by
  simp only [versionGroup, mem_ends_quest, mem_ends_seq, mem_ends_lit, mem_ends_digit,
    IsVersionGroup]
  constructor
  · rintro (⟨mid, rfl, mid2, ⟨d, hd, rfl⟩, (⟨e, he, rfl⟩ | rfl)⟩ | rfl)
    · exact ⟨['.', d, e], Or.inr (Or.inr ⟨d, e, hd, he, rfl⟩), rfl⟩
    · exact ⟨['.', d], Or.inr (Or.inl ⟨d, hd, rfl⟩), rfl⟩
    · exact ⟨[], Or.inl rfl, rfl⟩
  · rintro ⟨g, (rfl | ⟨d, hd, rfl⟩ | ⟨d, e, hd, he, rfl⟩), rfl⟩
    · exact Or.inr rfl
    · exact Or.inl ⟨d :: rest, rfl, rest, ⟨d, hd, rfl⟩, Or.inr rfl⟩
    · exact Or.inl ⟨d :: e :: rest, rfl, e :: rest, ⟨d, hd, rfl⟩, Or.inl ⟨e, he, rfl⟩⟩

theorem mem_ends_optionalDot (input s rest : List Char) :
    rest ∈ Regex.ends input (.quest (.lit '.')) s
      ↔ ∃ dot, (dot = [] ∨ dot = ['.']) ∧ s = dot ++ rest := by
  simp only [mem_ends_quest, mem_ends_lit]
  constructor
  · rintro (rfl | rfl)
    · exact ⟨['.'], Or.inr rfl, rfl⟩
    · exact ⟨[], Or.inl rfl, rfl⟩
  · rintro ⟨dot, (rfl | rfl), rfl⟩
    · exact Or.inr rfl
    · exact Or.inl rfl

theorem mem_ends_dnfFileRegex (input s rest : List Char) :
    rest ∈ Regex.ends input dnfFileRegex s
      ↔ s.length = input.length ∧ rest = []
        ∧ ∃ major dot minor, IsVersionGroup major ∧ (dot = [] ∨ dot = ['.'])
            ∧ IsVersionGroup minor ∧ s = ['p', 'i', 'p', '3'] ++ major ++ dot ++ minor := by
  simp only [dnfFileRegex, mem_ends_seq, mem_ends_beginText, mem_ends_lit,
    mem_ends_versionGroup, mem_ends_optionalDot, mem_ends_endText]
  constructor
  · rintro ⟨m0, ⟨hlen, rfl⟩, m1, h1, m2, rfl, m3, rfl, m4, rfl, m5, ⟨major, hmajor, rfl⟩,
      m6, ⟨dot, hdot, rfl⟩, m7, ⟨minor, hminor, rfl⟩, rfl, rfl⟩
    refine ⟨hlen, rfl, major, dot, minor, hmajor, hdot, hminor, ?_⟩
    rw [h1]
    simp
  · rintro ⟨hlen, rfl, major, dot, minor, hmajor, hdot, hminor, rfl⟩
    refine ⟨_, ⟨hlen, rfl⟩, 'i' :: 'p' :: '3' :: (major ++ (dot ++ (minor ++ []))), by simp,
      'p' :: '3' :: (major ++ (dot ++ (minor ++ []))), rfl,
      '3' :: (major ++ (dot ++ (minor ++ []))), rfl,
      major ++ (dot ++ (minor ++ [])), rfl,
      dot ++ (minor ++ []), ⟨major, hmajor, rfl⟩,
      minor ++ [], ⟨dot, hdot, rfl⟩, [], ⟨minor, hminor, rfl⟩, rfl, rfl⟩

theorem searchFrom_dnfFileRegex_of_shorter (input s : List Char)
    (hs : s.length < input.length) : Regex.searchFrom dnfFileRegex input s = false := by
  have hnone : ∀ t : List Char, t.length < input.length →
      Regex.ends input dnfFileRegex t = [] := by
    intro t ht
    apply List.eq_nil_iff_forall_not_mem.mpr
    intro rest hrest
    have := ((mem_ends_dnfFileRegex input t rest).mp hrest).1
    omega
  induction s with
  | nil => simp [Regex.searchFrom, hnone [] hs]
  | cons c cs ih =>
    have hcs : cs.length < input.length := by
      simp only [List.length_cons] at hs
      omega
    simp [Regex.searchFrom, hnone (c :: cs) hs, ih hcs]

theorem searchFrom_dnfFileRegex_self (input : List Char) :
    Regex.searchFrom dnfFileRegex input input
      = !(Regex.ends input dnfFileRegex input).isEmpty := by
  cases input with
  | nil => rfl
  | cons c cs =>
    rw [Regex.searchFrom, searchFrom_dnfFileRegex_of_shorter (c :: cs) cs (by simp)]
    simp

theorem looksLikednf_iff (name : String) : looksLikednf name = true ↔ IsPipName name := by
  unfold looksLikednf Regex.MatchString IsPipName
  rw [searchFrom_dnfFileRegex_self]
  constructor
  · intro h
    cases he : Regex.ends name.data dnfFileRegex name.data with
    | nil => simp [he] at h
    | cons rest rests =>
      have hm : rest ∈ Regex.ends name.data dnfFileRegex name.data := by simp [he]
      exact ((mem_ends_dnfFileRegex _ _ _).mp hm).2.2
  · intro h
    have hm : [] ∈ Regex.ends name.data dnfFileRegex name.data :=
      (mem_ends_dnfFileRegex _ _ _).mpr ⟨rfl, rfl, h⟩
    cases he : Regex.ends name.data dnfFileRegex name.data with
    | nil => simp [he] at hm
    | cons rest rests => simp

theorem IsVersionGroup_length (g : List Char) (hg : IsVersionGroup g) : g.length ≤ 3 := by
  rcases hg with rfl | ⟨d, _, rfl⟩ | ⟨d, e, _, _, rfl⟩ <;> simp

theorem IsPipName_prefix_length (name : String) (h : IsPipName name) :
    HasPrefix name "pip3" = true ∧ name.length ≤ 11 := by
  obtain ⟨major, dot, minor, hmajor, hdot, hminor, hname⟩ := h
  have h1 := IsVersionGroup_length _ hmajor
  have h2 := IsVersionGroup_length _ hminor
  have h3 : dot.length ≤ 1 := by rcases hdot with rfl | rfl <;> simp
  constructor
  · have hp : ("pip3" : String).data = ['p', 'i', 'p', '3'] := rfl
    simp [HasPrefix, hname, hp]
  · have hl : name.length = name.data.length := rfl
    rw [hl, hname]
    simp only [List.length_append, List.length_cons, List.length_nil]
    omega

/-! ## More on splitting -/

theorem isPrefixOf_false_of_no_occurrence (sep s : List Char) (h : ¬ sep <:+: s) :
    sep.isPrefixOf s = false := by
  cases hp : sep.isPrefixOf s with
  | false => rfl
  | true => exact absurd (List.isPrefixOf_iff_prefix.mp hp).isInfix h

theorem splitList_of_not_infix (sep s : List Char) (hsep : sep ≠ []) (h : ¬ sep <:+: s) :
    splitList sep s = [s] := by
  induction s with
  | nil => exact splitList_nil sep hsep
  | cons c cs ih =>
    have hcs : ¬ sep <:+: cs := fun hi => h (List.infix_cons hi)
    rw [ splitList_cons_of_not_prefix sep c cs hsep (isPrefixOf_false_of_no_occurrence _ _ h),
      ih hcs]
    rfl

theorem splitList_cons_cases (sep : List Char) (c : Char) (cs : List Char) (hsep : sep ≠ []) :
    (∃ b, c :: cs = sep ++ b ∧ splitList sep (c :: cs) = [] :: splitList sep b)
      ∨ (sep.isPrefixOf (c :: cs) = false
          ∧ splitList sep (c :: cs) = consHead c (splitList sep cs)) := by
  cases hp : sep.isPrefixOf (c :: cs) with
  | true =>
    obtain ⟨b, hb⟩ := List.isPrefixOf_iff_prefix.mp hp
    exact Or.inl ⟨b, hb.symm, by rw [← hb, splitList_sep_append sep b hsep]⟩
  | false => exact Or.inr ⟨rfl, splitList_cons_of_not_prefix sep c cs hsep hp⟩

theorem not_infix_of_splitList_singleton (sep s x : List Char) (hsep : sep ≠ [])
    (h : splitList sep s = [x]) : x = s ∧ ¬ sep <:+: s := by
  induction s generalizing x with
  | nil =>
    rw [splitList_nil sep hsep] at h
    refine ⟨by simpa using h.symm, ?_⟩
    intro hi
    exact hsep (List.eq_nil_of_infix_nil hi)
  | cons c cs ih =>
    rcases splitList_cons_cases sep c cs hsep with ⟨b, _, hb⟩ | ⟨hp, hb⟩
    · rw [hb] at h
      have : splitList sep b = [] := by
        simp only [List.cons.injEq] at h
        exact h.2
      exact absurd this (splitList_ne_nil sep b hsep)
    · rw [hb] at h
      cases hs : splitList sep cs with
      | nil => exact absurd hs (splitList_ne_nil sep cs hsep)
      | cons piece pieces =>
        rw [hs] at h
        simp only [consHead, List.cons.injEq] at h
        obtain ⟨hx, hnil⟩ := h
        subst hnil
        obtain ⟨hpiece, hno⟩ := ih piece hs
        refine ⟨by rw [← hx, hpiece], ?_⟩
        intro hi
        rcases List.infix_cons_iff.mp hi with hpre | hin
        · have := List.isPrefixOf_iff_prefix.mpr hpre
          rw [hp] at this
          exact absurd this (by simp)
        · exact hno hin

theorem splitList_cons_uncons (sep s a : List Char) (rest : List (List Char))
    (hsep : sep ≠ []) (hrest : rest ≠ []) (h : splitList sep s = a :: rest) :
    ∃ b, s = a ++ sep ++ b ∧ splitList sep b = rest := by
  induction s generalizing a with
  | nil =>
    rw [splitList_nil sep hsep] at h
    simp only [List.cons.injEq] at h
    exact absurd h.2.symm hrest
  | cons c cs ih =>
    rcases splitList_cons_cases sep c cs hsep with ⟨b, hcb, hb⟩ | ⟨_, hb⟩
    · rw [hb] at h
      simp only [List.cons.injEq] at h
      obtain ⟨ha, hr⟩ := h
      subst ha
      exact ⟨b, by simpa using hcb, hr⟩
    · rw [hb] at h
      cases hs : splitList sep cs with
      | nil => exact absurd hs (splitList_ne_nil sep cs hsep)
      | cons piece pieces =>
        rw [hs] at h
        simp only [consHead, List.cons.injEq] at h
        obtain ⟨ha, hr⟩ := h
        subst hr
        obtain ⟨b, hcs, hb'⟩ := ih piece hs
        exact ⟨b, by rw [← ha, hcs]; simp, hb'⟩

theorem splitList_two_parts (sep s a b : List Char) (hsep : sep ≠ [])
    (h : splitList sep s = [a, b]) : s = a ++ sep ++ b ∧ ¬ sep <:+: b := by
  obtain ⟨b', hs, hb'⟩ := splitList_cons_uncons sep s a [b] hsep (by simp) h
  obtain ⟨hb, hno⟩ := not_infix_of_splitList_singleton sep b' b hsep hb'
  subst hb
  exact ⟨hs, hno⟩

theorem splitList_nl_pieces (s : List Char) :
    ∀ piece ∈ splitList ['\n'] s, '\n' ∉ piece := by
  induction s with
  | nil =>
    rw [splitList_nil _ (by simp)]
    simp
  | cons c cs ih =>
    rw [splitList_nl_cons]
    split
    · intro piece hp
      rcases List.mem_cons.mp hp with rfl | hp'
      · simp
      · exact ih piece hp'
    · next hc =>
      cases hs : splitList ['\n'] cs with
      | nil => exact absurd hs (splitList_ne_nil _ cs (by simp))
      | cons first others =>
        rw [hs] at ih
        intro piece hp
        simp only [consHead, List.mem_cons] at hp
        rcases hp with rfl | hp'
        · intro hm
          rcases List.mem_cons.mp hm with h | h
          · exact hc h.symm
          · exact ih first (by simp) h
        · exact ih piece (by simp [hp'])

theorem Split_nl_lines (output : String) : ∀ l ∈ Split output "\n", '\n' ∉ l.data := by
  intro l hl
  have hn : ("\n" : String).data = ['\n'] := rfl
  simp only [Split, hn, List.mem_map] at hl
  obtain ⟨piece, hp, rfl⟩ := hl
  exact splitList_nl_pieces _ piece hp

/-! ## More on trimming -/

theorem trimLeft_head (x : List Char) (c : Char) (h : (trimLeft x).head? = some c) :
    isSpace c = false := by
  have := List.head?_dropWhile_not isSpace x
  unfold trimLeft at h
  rw [h] at this
  exact this

theorem trimRight_getLast (x : List Char) (c : Char) (h : (trimRight x).getLast? = some c) :
    isSpace c = false := by
  unfold trimRight at h
  rw [List.getLast?_reverse] at h
  exact trimLeft_head x.reverse c h

theorem trimLeft_id (x : List Char) (h : ∀ c, x.head? = some c → isSpace c = false) :
    trimLeft x = x := by
  cases x with
  | nil => rfl
  | cons c cs => simp [trimLeft, List.dropWhile, h c rfl]

theorem trimRight_id (x : List Char) (h : ∀ c, x.getLast? = some c → isSpace c = false) :
    trimRight x = x := by
  have := trimLeft_id x.reverse (by simpa using h)
  unfold trimLeft at this
  simp [trimRight, this]

theorem mem_trimLeft (x : List Char) (c : Char) (h : c ∈ trimLeft x) : c ∈ x :=
  (List.dropWhile_sublist isSpace).subset h

theorem mem_trimRight (x : List Char) (c : Char) (h : c ∈ trimRight x) : c ∈ x := by
  unfold trimRight at h
  rw [List.mem_reverse] at h
  exact List.mem_reverse.mp ((List.dropWhile_sublist isSpace).subset h)

theorem mem_TrimSpace (l : String) (c : Char) (h : c ∈ (TrimSpace l).data) : c ∈ l.data :=
  mem_trimLeft _ _ (mem_trimRight _ _ h)

theorem trimLeft_space_append (u x : List Char) (hu : ∀ c ∈ u, isSpace c = true) :
    trimLeft (u ++ x) = trimLeft x := by
  induction u with
  | nil => rfl
  | cons c cs ih =>
    have hc : isSpace c = true := hu c (by simp)
    have := ih (fun d hd => hu d (by simp [hd]))
    unfold trimLeft at this ⊢
    simp [List.dropWhile, hc, this]

theorem trimRight_append_space (x v : List Char) (hv : ∀ c ∈ v, isSpace c = true) :
    trimRight (x ++ v) = trimRight x := by
  have := trimLeft_space_append v.reverse x.reverse (by simpa using hv)
  unfold trimLeft at this
  simp [trimRight, this]

theorem trim_padded (u l v : List Char) (hu : ∀ c ∈ u, isSpace c = true)
    (hv : ∀ c ∈ v, isSpace c = true) :
    trimRight (trimLeft (u ++ l ++ v)) = trimRight (trimLeft l) := by
  rw [List.append_assoc, trimLeft_space_append u _ hu]
  unfold trimLeft
  rw [List.dropWhile_append]
  split
  · next hempty =>
    have h1 : List.dropWhile isSpace l = [] := by simpa using hempty
    have h2 : List.dropWhile isSpace v = [] := trimLeft_of_all_space v hv
    rw [h1, h2]
  · exact trimRight_append_space _ v hv

theorem TrimSpace_padded (u l v : String) (hu : ∀ c ∈ u.data, isSpace c = true)
    (hv : ∀ c ∈ v.data, isSpace c = true) : TrimSpace (u ++ l ++ v) = TrimSpace l := by
  unfold TrimSpace
  simp only [String.data_append]
  rw [trim_padded u.data l.data v.data hu hv]

theorem TrimSpace_id (l : String) (hh : ∀ c, l.data.head? = some c → isSpace c = false)
    (hl : ∀ c, l.data.getLast? = some c → isSpace c = false) : TrimSpace l = l := by
  unfold TrimSpace
  rw [trimLeft_id _ hh, trimRight_id _ hl]

/-! ## More on the loop of the `Depends` parser -/

theorem dependsLoop_forall (Q : Package → Prop) (lines : List String)
    (dependencies : List Package) (hdeps : ∀ p ∈ dependencies, Q p)
    (hline : ∀ line ∈ lines, ∀ a name, TrimSpace line ≠ "" →
      HasPrefix (TrimSpace line) "provider:" = true →
      Split (TrimSpace line) ": " = [a, name] → Q { Name := name }) :
    ∀ p ∈ packagesOf (dependsLoop lines dependencies), Q p := by
  induction lines generalizing dependencies with
  | nil => simpa [dependsLoop, packagesOf] using hdeps
  | cons line lines ih =>
    have hrest : ∀ l ∈ lines, ∀ a name, TrimSpace l ≠ "" →
        HasPrefix (TrimSpace l) "provider:" = true →
        Split (TrimSpace l) ": " = [a, name] → Q { Name := name } :=
      fun l hl => hline l (by simp [hl])
    simp only [dependsLoop]
    split
    · simpa [packagesOf] using hdeps
    · next hne =>
      split
      · next hpre =>
        split
        · next a name hsplit =>
          apply ih _ _ hrest
          intro p hp
          rcases List.mem_append.mp hp with h | h
          · exact hdeps p h
          · rw [List.mem_singleton.mp h]
            exact hline line (by simp) a name hne hpre hsplit
        · exact ih _ hdeps hrest
      · exact ih _ hdeps hrest

theorem dependsLoop_skip (before after : List String) (line : String)
    (dependencies : List Package) (hne : TrimSpace line ≠ "")
    (hpre : HasPrefix (TrimSpace line) "provider:" = false) :
    dependsLoop (before ++ line :: after) dependencies
      = dependsLoop (before ++ after) dependencies := by
  induction before generalizing dependencies with
  | nil => simp [dependsLoop, hne, hpre]
  | cons l ls ih =>
    simp only [List.cons_append, dependsLoop]
    split
    · rfl
    · split
      · split <;> exact ih _
      · exact ih _

theorem dependsLoop_cons_congr (l l' : String) (rest : List String)
    (dependencies : List Package) (h : TrimSpace l = TrimSpace l') :
    dependsLoop (l :: rest) dependencies = dependsLoop (l' :: rest) dependencies := by
  simp only [dependsLoop, h]

theorem provider_line_trim (n : String) (hne : n ≠ "")
    (hlast : ∀ c, n.data.getLast? = some c → isSpace c = false) :
    TrimSpace ("provider: " ++ n) = "provider: " ++ n := by
  have hp : ("provider: " : String).data = ['p','r','o','v','i','d','e','r',':',' '] := rfl
  have hn : n.data ≠ [] := fun h => hne (String.ext h)
  apply TrimSpace_id
  · intro c hc
    simp only [String.data_append, hp, List.cons_append, List.head?_cons,
      Option.some.injEq] at hc
    subst hc
    decide
  · intro c hc
    apply hlast c
    rw [String.data_append, List.getLast?_append] at hc
    cases hl : n.data.getLast? with
    | none => exact absurd (List.getLast?_eq_none_iff.mp hl) hn
    | some d =>
      rw [hl] at hc
      simpa using hc

theorem provider_line_split (n : String) (hsep : ¬ (": " : String).data <:+: n.data) :
    Split ("provider: " ++ n) ": " = ["provider", n] := by
  have hp : ("provider: " : String).data = ['p','r','o','v','i','d','e','r',':',' '] := rfl
  have hs : (": " : String).data = [':', ' '] := rfl
  have hne : ([':', ' '] : List Char) ≠ [] := by simp
  rw [hs] at hsep
  unfold Split
  rw [String.data_append, hp, hs]
  have step : ∀ (c : Char) (cs : List Char), c ≠ ':' →
      splitList [':', ' '] (c :: cs) = consHead c (splitList [':', ' '] cs) := by
    intro c cs hc
    apply splitList_cons_of_not_prefix _ _ _ hne
    simp [List.isPrefixOf]
    intro h
    exact absurd h.symm hc
  have hmatch : splitList [':', ' '] ([':', ' '] ++ n.data) = [] :: [n.data] := by
    rw [splitList_sep_append _ _ hne, splitList_of_not_infix _ _ hne hsep]
  simp only [List.cons_append, List.nil_append] at hmatch ⊢
  rw [step 'p' _ (by decide), step 'r' _ (by decide), step 'o' _ (by decide),
    step 'v' _ (by decide), step 'i' _ (by decide), step 'd' _ (by decide),
    step 'e' _ (by decide), step 'r' _ (by decide), hmatch]
  rfl

theorem dependsLoop_provider_lines (names : List String) (dependencies : List Package)
    (hne : ∀ n ∈ names, n ≠ "")
    (hsep : ∀ n ∈ names, ¬ (": " : String).data <:+: n.data)
    (hlast : ∀ n ∈ names, ∀ c, n.data.getLast? = some c → isSpace c = false) :
    dependsLoop (names.map (fun n => "provider: " ++ n)) dependencies
      = (some (dependencies ++ names.map (fun n => { Name := n })), none) := by
  induction names generalizing dependencies with
  | nil => simp [dependsLoop]
  | cons n names ih =>
    have htrim := provider_line_trim n (hne n (by simp)) (hlast n (by simp))
    have hsplit := provider_line_split n (hsep n (by simp))
    have hnonblank : ("provider: " ++ n : String) ≠ "" := by
      intro h
      have := congrArg String.data h
      simp [String.data_append] at this
    have hpre : HasPrefix ("provider: " ++ n) "provider:" = true := by
      simp [HasPrefix, String.data_append]
    simp only [List.map_cons, dependsLoop, htrim, hnonblank, hpre, hsplit, if_false, if_true]
    rw [ih _ (fun m hm => hne m (by simp [hm])) (fun m hm => hsep m (by simp [hm]))
      (fun m hm => hlast m (by simp [hm]))]
    simp

/-! ## Joining the lines of a text -/

theorem Join_data (lines : List (List Char)) :
    (Join (lines.map String.mk) "\n").data = joinLines lines := by
  induction lines with
  | nil => rfl
  | cons a rest ih =>
    cases rest with
    | nil => rfl
    | cons b rest =>
      have hn : ("\n" : String).data = ['\n'] := rfl
      simp only [List.map_cons, Join, String.data_append, hn] at ih ⊢
      rw [ih]
      simp [joinLines]

theorem joinLines_consHead (c : Char) (lines : List (List Char)) (h : lines ≠ []) :
    joinLines (consHead c lines) = c :: joinLines lines := by
  rcases lines with _ | ⟨a, _ | ⟨b, rest⟩⟩
  · exact absurd rfl h
  · rfl
  · rfl

theorem joinLines_nil_cons (lines : List (List Char)) (h : lines ≠ []) :
    joinLines ([] :: lines) = '\n' :: joinLines lines := by
  cases lines with
  | nil => exact absurd rfl h
  | cons a rest => rfl

theorem joinLines_splitList (s : List Char) : joinLines (splitList ['\n'] s) = s := by
  induction s with
  | nil =>
    rw [splitList_nil _ (by simp)]
    rfl
  | cons c cs ih =>
    rw [splitList_nl_cons]
    split
    · next h =>
      rw [joinLines_nil_cons _ (splitList_ne_nil _ _ (by simp)), ih, h]
    · rw [joinLines_consHead _ _ (splitList_ne_nil _ _ (by simp)), ih]

theorem Join_Split_nl (output : String) : Join (Split output "\n") "\n" = output := by
  apply String.ext
  have hn : ("\n" : String).data = ['\n'] := rfl
  unfold Split
  rw [Join_data, hn, joinLines_splitList]

/-! ## Blank package names -/

theorem blank_name_install (exec : Executor) (a : Option Dnf) (packageName : String)
    (opt : Option Options) (hblank : TrimSpace packageName = "") :
    Dnf.Install exec a packageName opt
      = .returned (some (Errorf "runner: " (Errorf "Install: " errPackageNameNotSpecified)))
          [] := by
  unfold Dnf.Install
  rw [runner_of_builder_error exec a _ [] (Errorf "Install: " errPackageNameNotSpecified)
    (by simp [installArguments, hblank])]
  rfl

theorem blank_name_remove (exec : Executor) (a : Option Dnf) (packageName : String)
    (opt : Option Options) (hblank : TrimSpace packageName = "") :
    Dnf.Remove exec a packageName opt
      = .returned (some (Errorf "runner: " (Errorf "Remove: " errPackageNameNotSpecified)))
          [] := by
  unfold Dnf.Remove
  rw [runner_of_builder_error exec a _ [] (Errorf "Remove: " errPackageNameNotSpecified)
    (by simp [removeArguments, hblank])]
  rfl

theorem blank_name_search (exec : Executor) (a : Option Dnf) (packageName : String)
    (opt : Option Options) (hblank : TrimSpace packageName = "") :
    Dnf.Search exec a packageName opt
      = .returned (some (Errorf "runner: " (Errorf "Remove: " errPackageNameNotSpecified)))
          [] := by
  unfold Dnf.Search
  rw [runner_of_builder_error exec a _ [] (Errorf "Remove: " errPackageNameNotSpecified)
    (by simp [searchArguments, hblank])]
  rfl

/-! ## The names the parser yields -/

theorem provider_name_well_formed (line a name : String) (hnl : '\n' ∉ line.data)
    (hsplit : Split (TrimSpace line) ": " = [a, name]) :
    name ≠ "" ∧ '\n' ∉ name.data ∧ ¬ (": " : String).data <:+: name.data
      ∧ ∀ c, name.data.getLast? = some c → isSpace c = false := by
  have hs : (": " : String).data = [':', ' '] := rfl
  have hsepne : ([':', ' '] : List Char) ≠ [] := by simp
  unfold Split at hsplit
  rw [hs] at hsplit ⊢
  rcases hp : splitList [':', ' '] (TrimSpace line).data with _ | ⟨x, _ | ⟨y, _ | ⟨z, r⟩⟩⟩
  · rw [hp] at hsplit; simp at hsplit
  · rw [hp] at hsplit; simp at hsplit
  · rw [hp] at hsplit
    simp only [List.map_cons, List.map_nil, List.cons.injEq, and_true] at hsplit
    obtain ⟨_, hname⟩ := hsplit
    subst hname
    obtain ⟨hdata, hno⟩ := splitList_two_parts _ _ x y hsepne hp
    have hlast : ∀ c, (TrimSpace line).data.getLast? = some c → isSpace c = false :=
      fun c hc => trimRight_getLast _ c hc
    have hy : y ≠ [] := by
      intro hy
      subst hy
      have := hlast ' ' (by rw [hdata]; simp)
      exact absurd this (by decide)
    refine ⟨?_, ?_, hno, ?_⟩
    · intro h
      exact hy (congrArg String.data h)
    · intro hm
      apply hnl
      apply mem_TrimSpace
      rw [hdata]
      simp only [List.mem_append]
      exact Or.inr hm
    · intro c hc
      apply hlast c
      rw [hdata, List.getLast?_append]
      have hc' : y.getLast? = some c := hc
      rw [hc']
      rfl
  · rw [hp] at hsplit; simp at hsplit

/-! ## The claims of the specification on the locator, the constructor and
the parsed names -/

/-- C11: `looksLikednf` is whole-string matching of
`^pip3(\.\d\d?)?\.?(\.\d\d?)?$`.  A name is accepted exactly when it is `pip3`
followed by an optional group (a `.` and one or two ASCII digits), an optional
single `.` and an optional group, with nothing before or after; of `pip3`,
`pip3.9`, `pip3.10.2` and `notpip` it selects the first three. -/
theorem looksLikednf_whole_string_pattern (name : String) :
    (looksLikednf name = true ↔ IsPipName name)
      ∧ looksLikednf "pip3" = true ∧ looksLikednf "pip3.9" = true
      ∧ looksLikednf "pip3.10.2" = true ∧ looksLikednf "notpip" = false
      ∧ ["pip3", "pip3.9", "pip3.10.2", "notpip"].filter looksLikednf
          = ["pip3", "pip3.9", "pip3.10.2"] :=
  ⟨looksLikednf_iff name, by decide, by decide, by decide, by decide, by decide⟩

/-- C12: `DnfBinaryFrom` on the result of the directory scan.  A scan without
error that yields no executable gives the empty path and the error
`No dnf found.`; a scan without error that yields a non-empty list gives its
first element and a `nil` error; a scan that reports an error gives the empty
path and that error. -/
theorem DnfBinaryFrom_by_scan_result (ExecsInPath : Scanner) (path : String) :
    (ExecsInPath path looksLikednf = ([], none) →
        DnfBinaryFrom ExecsInPath path = ("", some (.errorString "No dnf found."))
          ∧ (GoError.errorString "No dnf found.").Error = "No dnf found.")
      ∧ (∀ first rest, ExecsInPath path looksLikednf = (first :: rest, none) →
        DnfBinaryFrom ExecsInPath path = (first, none))
      ∧ (∀ execs err, ExecsInPath path looksLikednf = (execs, some err) →
        DnfBinaryFrom ExecsInPath path = ("", some err)) := by
  refine ⟨?_, ?_, ?_⟩
  · intro h
    simp [DnfBinaryFrom, h, GoError.Error]
  · intro first rest h
    simp [DnfBinaryFrom, h]
  · intro execs err h
    simp [DnfBinaryFrom, h]

/-- Witness for C12: a scan of `/usr/bin` that yields `pip3.9` and `pip3`, in
this order. -/
theorem DnfBinaryFrom_by_scan_result_witness :
    (fun _ _ => (["pip3.9", "pip3"], none) : Scanner) "/usr/bin" looksLikednf
        = ("pip3.9" :: ["pip3"], none)
      ∧ DnfBinaryFrom (fun _ _ => (["pip3.9", "pip3"], none)) "/usr/bin" = ("pip3.9", none) :=
  ⟨rfl,
   (DnfBinaryFrom_by_scan_result (fun _ _ => (["pip3.9", "pip3"], none)) "/usr/bin").2.1
      "pip3.9" ["pip3"] rfl⟩

/-- C13: a client made with an explicit path never attempts auto-detection.
For every non-empty path and whatever the search-path lookup would answer,
`New` returns the client holding exactly that path and looks nothing up. -/
theorem New_explicit_path_no_detection (lookPath : LookPath) (binaryPath : String)
    (hpath : binaryPath ≠ "") :
    New lookPath binaryPath = (some ⟨binaryPath⟩, []) := by
  simp [New, hpath]

/-- Witness for C13: a path that need not exist, with a lookup that would
have found another binary. -/
theorem New_explicit_path_no_detection_witness :
    ("/no/such/dnf" : String) ≠ ""
      ∧ New (fun _ => ("/usr/bin/dnf", none)) "/no/such/dnf" = (some ⟨"/no/such/dnf"⟩, []) :=
  ⟨by decide,
   New_explicit_path_no_detection (fun _ => ("/usr/bin/dnf", none)) "/no/such/dnf"
     (by decide)⟩

/-- C14: `New ""` attempts auto-detection and swallows its failure.  It looks
up `dnf` once; when the lookup succeeds with the path `q` the client holds
`q`, when it fails `New` returns the `nil` client; and for any path `New`
returns `nil` exactly when the path is empty and the lookup of `dnf` fails. -/
theorem New_empty_path_detects (lookPath : LookPath) (binaryPath : String) :
    (∀ q, lookPath "dnf" = (q, none) → New lookPath "" = (some ⟨q⟩, ["dnf"]))
      ∧ (∀ q err, lookPath "dnf" = (q, some err) → New lookPath "" = (none, ["dnf"]))
      ∧ ((New lookPath binaryPath).1 = none
          ↔ binaryPath = "" ∧ (lookPath "dnf").2 ≠ none) := by
  have hd : dnf = "dnf" := rfl
  refine ⟨?_, ?_, ?_⟩
  · intro q h
    simp [New, DetectdnfBinary, hd, h]
  · intro q err h
    simp [New, DetectdnfBinary, hd, h]
  · by_cases hp : binaryPath = ""
    · subst hp
      rcases hl : lookPath "dnf" with ⟨q, _ | err⟩
      · simp [New, DetectdnfBinary, hd, hl]
      · simp [New, DetectdnfBinary, hd, hl]
    · simp [New, hp]

/-- Witness for C14: a lookup that fails with `executable file not found`. -/
theorem New_empty_path_detects_witness :
    (fun _ => ("", some (.execError "executable file not found in $PATH")) : LookPath) "dnf"
        = ("", some (.execError "executable file not found in $PATH"))
      ∧ New (fun _ => ("", some (.execError "executable file not found in $PATH"))) ""
          = (none, ["dnf"]) :=
  ⟨rfl,
   (New_empty_path_detects
      (fun _ => ("", some (.execError "executable file not found in $PATH"))) "").2.1
      "" (.execError "executable file not found in $PATH") rfl⟩

/-- C15: only `Name` is ever populated.  For every captured text, every
`Package` in the list the `Depends` parser returns has the empty string as its
`Version` and as its `Path`. -/
theorem parsed_packages_only_name (output : String) :
    ∀ p ∈ packagesOf (dependsParser output), p.Version = "" ∧ p.Path = "" := by
  apply dependsLoop_forall (fun p => p.Version = "" ∧ p.Path = "")
  · intro p hp
    simp at hp
  · intro line _ a name _ _ _
    exact ⟨rfl, rfl⟩

/-- Witness for C15: the one entry parsed from two provider lines of which
the second has no separator. -/
theorem parsed_packages_only_name_witness :
    ({ Name := "glibc" } : Package) ∈ packagesOf (dependsParser "provider: glibc\nprovider:x")
      ∧ ({ Name := "glibc" } : Package).Version = ""
      ∧ ({ Name := "glibc" } : Package).Path = "" :=
  ⟨by decide,
   parsed_packages_only_name "provider: glibc\nprovider:x" { Name := "glibc" } (by decide)⟩

/-- C16: the parser recovers a rendered provider list, in order.  For names
that are non-empty, hold no line break and no `": "`, and do not end in white
space, parsing the lines `"provider: " ++ n` joined by `"\n"` gives exactly
one `Package` per name, in the same order, so with the same length. -/
theorem parser_recovers_provider_list (names : List String)
    (hne : ∀ n ∈ names, n ≠ "")
    (hnl : ∀ n ∈ names, '\n' ∉ n.data)
    (hsep : ∀ n ∈ names, ¬ (": " : String).data <:+: n.data)
    (hlast : ∀ n ∈ names, ∀ c, n.data.getLast? = some c → isSpace c = false) :
    dependsParser (Join (names.map (fun n => "provider: " ++ n)) "\n")
        = (some (names.map (fun n => { Name := n })), none)
      ∧ (packagesOf (dependsParser (Join (names.map (fun n => "provider: " ++ n)) "\n"))).length
          = names.length := by
  have hlines : ∀ l ∈ names.map (fun n => "provider: " ++ n), '\n' ∉ l.data := by
    intro l hl
    obtain ⟨n, hn, rfl⟩ := List.mem_map.mp hl
    have hp : ("provider: " : String).data = ['p','r','o','v','i','d','e','r',':',' '] := rfl
    rw [String.data_append, List.mem_append, hp]
    rintro (h | h)
    · exact absurd h (by decide)
    · exact hnl n hn h
  have key : dependsParser (Join (names.map (fun n => "provider: " ++ n)) "\n")
      = (some (names.map (fun n => { Name := n })), none) := by
    rw [dependsParser_Join _ hlines, dependsLoop_provider_lines names [] hne hsep hlast]
    simp
  refine ⟨key, ?_⟩
  rw [key]
  simp [packagesOf]

/-- Witness for C16: two names, one with a colon and one beginning with a
blank. -/
theorem parser_recovers_provider_list_witness :
    (∀ n ∈ ["glibc-2.38:x86", " bash"], n ≠ "")
      ∧ (∀ n ∈ ["glibc-2.38:x86", " bash"], '\n' ∉ n.data)
      ∧ dependsParser "provider: glibc-2.38:x86\nprovider:  bash"
          = (some [{ Name := "glibc-2.38:x86" }, { Name := " bash" }], none) :=
  ⟨by decide, by decide,
   (parser_recovers_provider_list ["glibc-2.38:x86", " bash"] (by decide) (by decide)
      (by decide) (by decide)).1⟩

/-- C17: lines that are not provider lines are ignored.  A text is the join
of its lines; for a line without line break whose trimmed form is non-empty
and does not begin with `provider:`, putting it in as a further line at any
position leaves the parser's result unchanged.  White space around a line does
not matter: the trimmed line, which is all the loop looks at, is the same. -/
theorem non_provider_line_ignored (output line : String) (i : Nat)
    (hnl : '\n' ∉ line.data) (hne : TrimSpace line ≠ "")
    (hpre : HasPrefix (TrimSpace line) "provider:" = false) :
    Join (Split output "\n") "\n" = output
      ∧ dependsParser
          (Join ((Split output "\n").take i ++ line :: (Split output "\n").drop i) "\n")
          = dependsParser output
      ∧ (∀ u l v : String, (∀ c ∈ u.data, isSpace c = true) →
          (∀ c ∈ v.data, isSpace c = true) →
          TrimSpace (u ++ l ++ v) = TrimSpace l
            ∧ ∀ rest dependencies,
                dependsLoop ((u ++ l ++ v) :: rest) dependencies
                  = dependsLoop (l :: rest) dependencies) := by
  refine ⟨Join_Split_nl output, ?_, ?_⟩
  · have hlines : ∀ l ∈ (Split output "\n").take i ++ line :: (Split output "\n").drop i,
        '\n' ∉ l.data := by
      intro l hl
      rcases List.mem_append.mp hl with h | h
      · exact Split_nl_lines output l (List.mem_of_mem_take h)
      · rcases List.mem_cons.mp h with rfl | h'
        · exact hnl
        · exact Split_nl_lines output l (List.mem_of_mem_drop h')
    rw [dependsParser_Join _ hlines, dependsLoop_skip _ _ _ _ hne hpre,
      List.take_append_drop]
    rfl
  · intro u l v hu hv
    have ht := TrimSpace_padded u l v hu hv
    exact ⟨ht, fun rest dependencies => dependsLoop_cons_congr _ _ rest dependencies ht⟩

/-- Witness for C17: a `dependency:` line put between two provider lines. -/
theorem non_provider_line_ignored_witness :
    '\n' ∉ (" dependency: libc.so.6 " : String).data
      ∧ TrimSpace " dependency: libc.so.6 " ≠ ""
      ∧ HasPrefix (TrimSpace " dependency: libc.so.6 ") "provider:" = false
      ∧ dependsParser "provider: a\n dependency: libc.so.6 \nprovider: b"
          = dependsParser "provider: a\nprovider: b" :=
  ⟨by decide, by decide, by decide,
   (show dependsParser "provider: a\n dependency: libc.so.6 \nprovider: b"
        = dependsParser (Join ((Split "provider: a\nprovider: b" "\n").take 1
            ++ " dependency: libc.so.6 " :: (Split "provider: a\nprovider: b" "\n").drop 1)
            "\n") from by decide).trans
     (non_provider_line_ignored "provider: a\nprovider: b" " dependency: libc.so.6 " 1
        (by decide) (by decide) (by decide)).2.1⟩

/-- C18: the naming pattern of the directory locator does not fit a binary
named `dnf`.  `looksLikednf "dnf"` is false; every accepted name begins with
`pip3` and has at most 11 characters; and when the scan yields only files
whose name (the `base` of what it lists) the predicate accepts, the file
`DnfBinaryFrom` selects is never named `dnf`. -/
theorem locator_pattern_excludes_dnf (ExecsInPath : Scanner) (path : String)
    (base : String → String) :
    looksLikednf "dnf" = false
      ∧ (∀ name, looksLikednf name = true →
          HasPrefix name "pip3" = true ∧ name.length ≤ 11)
      ∧ ((∀ x ∈ (ExecsInPath path looksLikednf).1, looksLikednf (base x) = true) →
          ∀ found, DnfBinaryFrom ExecsInPath path = (found, none) → base found ≠ "dnf") := by
  refine ⟨by decide, ?_, ?_⟩
  · intro name h
    exact IsPipName_prefix_length name ((looksLikednf_iff name).mp h)
  · intro hscan found hfound hdnf
    rcases hs : ExecsInPath path looksLikednf with ⟨execs, _ | err⟩
    · rw [hs] at hscan
      cases execs with
      | nil => simp [DnfBinaryFrom, hs] at hfound
      | cons first rest =>
        simp [DnfBinaryFrom, hs] at hfound
        have := hscan first (by simp)
        rw [hfound, hdnf] at this
        exact absurd this (by decide)
    · simp [DnfBinaryFrom, hs] at hfound

/-- Witness for C18: a scan that lists `/opt/bin/pip3.11`, whose file name the
predicate accepts. -/
theorem locator_pattern_excludes_dnf_witness :
    (∀ x ∈ ((fun _ _ => (["/opt/bin/pip3.11"], none) : Scanner) "/opt/bin" looksLikednf).1,
        looksLikednf ((fun x => x.drop 9) x) = true)
      ∧ DnfBinaryFrom (fun _ _ => (["/opt/bin/pip3.11"], none)) "/opt/bin"
          = ("/opt/bin/pip3.11", none)
      ∧ (fun x : String => x.drop 9) "/opt/bin/pip3.11" ≠ "dnf" :=
  ⟨by decide, by decide,
   (locator_pattern_excludes_dnf (fun _ _ => (["/opt/bin/pip3.11"], none)) "/opt/bin"
      (fun x => x.drop 9)).2.2 (by decide) "/opt/bin/pip3.11" (by decide)⟩

/-- C19: the parsed names are well formed.  For every captured text, every
`Package` the `Depends` parser returns has a `Name` that is non-empty, holds
no line break and no `": "`, and does not end in a white-space character; a
name may begin with one, as for the line `provider:  x`. -/
theorem parsed_names_well_formed (output : String) :
    (∀ p ∈ packagesOf (dependsParser output),
        p.Name ≠ "" ∧ '\n' ∉ p.Name.data ∧ ¬ (": " : String).data <:+: p.Name.data
          ∧ ∀ c, p.Name.data.getLast? = some c → isSpace c = false)
      ∧ dependsParser "provider:  x" = (some [{ Name := " x" }], none) := by
  refine ⟨?_, by decide⟩
  apply dependsLoop_forall
    (fun p => p.Name ≠ "" ∧ '\n' ∉ p.Name.data ∧ ¬ (": " : String).data <:+: p.Name.data
      ∧ ∀ c, p.Name.data.getLast? = some c → isSpace c = false)
  · intro p hp
    simp at hp
  · intro line hline a name _ _ hsplit
    exact provider_name_well_formed line a name (Split_nl_lines output line hline) hsplit

/-- Witness for C19: the name parsed from a padded provider line. -/
theorem parsed_names_well_formed_witness :
    ({ Name := "glibc" } : Package) ∈ packagesOf (dependsParser "x\n  provider: glibc \t")
      ∧ ({ Name := "glibc" } : Package).Name ≠ ""
      ∧ '\n' ∉ ({ Name := "glibc" } : Package).Name.data :=
  ⟨by decide,
   ((parsed_names_well_formed "x\n  provider: glibc \t").1 { Name := "glibc" }
      (by decide)).1,
   ((parsed_names_well_formed "x\n  provider: glibc \t").1 { Name := "glibc" }
      (by decide)).2.1⟩

/-- C20: the text of the argument error.  For a blank package name the error
of `Install` reads `runner: Install: packageName was not specified.`, that of
`Depends` reads `runner: Depends: packageName was not specified.` and that of
`Remove` reads `runner: Remove: packageName was not specified.`; `Search`
returns the very message of `Remove`, labelled `Remove` and not `Search`. -/
theorem argument_error_text (exec : Executor) (a : Option Dnf) (packageName : String)
    (opt : Option Options) (hblank : TrimSpace packageName = "") :
    (∃ err, Dnf.Install exec a packageName opt = .returned (some err) []
        ∧ err.Error = "runner: Install: packageName was not specified.")
      ∧ (∃ err, Dnf.Depends exec a packageName opt = .returned (none, some err) []
        ∧ err.Error = "runner: Depends: packageName was not specified.")
      ∧ (∃ err, Dnf.Remove exec a packageName opt = .returned (some err) []
        ∧ err.Error = "runner: Remove: packageName was not specified.")
      ∧ (∃ err, Dnf.Search exec a packageName opt = .returned (some err) []
        ∧ err.Error = "runner: Remove: packageName was not specified."
        ∧ err.Error ≠ "runner: Search: packageName was not specified.")
      ∧ Dnf.Search exec a packageName opt = Dnf.Remove exec a packageName opt :=
  ⟨⟨_, blank_name_install exec a packageName opt hblank, by decide⟩,
   ⟨_, blank_name_depends exec a packageName opt hblank, by decide⟩,
   ⟨_, blank_name_remove exec a packageName opt hblank, by decide⟩,
   ⟨_, blank_name_search exec a packageName opt hblank, by decide, by decide⟩,
   (blank_name_search exec a packageName opt hblank).trans
     (blank_name_remove exec a packageName opt hblank).symm⟩

/-- Witness for C20: searching the empty name. -/
theorem argument_error_text_witness :
    TrimSpace "" = ""
      ∧ Dnf.Search (fun _ => ⟨"", "", none⟩) (some ⟨"dnf"⟩) "" (some {})
          = Dnf.Remove (fun _ => ⟨"", "", none⟩) (some ⟨"dnf"⟩) "" (some {})
      ∧ Dnf.Search (fun _ => ⟨"", "", none⟩) (some ⟨"dnf"⟩) "" (some {})
          = .returned (some (.errorString "runner: Remove: packageName was not specified."))
              [] :=
  ⟨by decide,
   (argument_error_text (fun _ => ⟨"", "", none⟩) (some ⟨"dnf"⟩) "" (some {})
      (by decide)).2.2.2.2,
   by decide⟩

end GoDnf
